import Mathlib

/-!
Shallow embedding of the RecipeDB backend (files `backend/crud.py`, `backend/main.py`,
`backend/models.py` of the repository) together with proofs about the behaviour of its
ingredient/tag normalization pipeline, quantity parsing, recipe-write transactionality,
presence aggregation, registration admin flag, and favorite operations.

Modelling conventions:
* Python strings are modelled as `List Char` (`Str` below); `str.strip()`, `str.lower()`
  and whitespace removal are modelled character-wise over the ASCII range that the
  backend's data actually uses.
* Database rows are modelled as Lean structures, tables as lists of rows, and the
  SQLAlchemy session as a pair of database states (`committed`/`pending`): queries and
  mutations act on the pending state, `commit` copies pending over committed, and a
  raised exception leaves the committed state as the persisted outcome (the session of
  `get_db` is closed without committing, discarding pending changes).
* `ValueError` raises (surfaced as `ValidationError` by the HTTP layer) are modelled by
  `Except` with the exact message text of the source.
-/

namespace RecipeDB

abbrev Str := List Char

/-- Model of Python `str.strip()`: drop leading and trailing whitespace. -/
def pyStrip (s : Str) : Str :=
  ((s.dropWhile Char.isWhitespace).reverse.dropWhile Char.isWhitespace).reverse

/-- Model of Python `str.lower()` on the ASCII letters the backend handles. -/
def toLowerStr (s : Str) : Str := s.map Char.toLower

/-- Model of `re.sub(r"\s+", "", value)` in `_normalize_quantity`: remove every
whitespace character. -/
def removeWhitespace (s : Str) : Str := s.filter (fun c => !c.isWhitespace)

/-- `crud.VALID_QUANTITY_UNITS = {"ml", "cl", "dl", "l", "mg", "g", "kg", "st"}`,
listed in the alternation order of `crud.QUANTITY_PATTERN`. Membership tests below
never depend on the order, matching the Python set semantics. -/
def VALID_QUANTITY_UNITS : List Str := ["ml", "cl", "dl", "l", "mg", "g", "kg", "st"].map String.data

/-- The tail step of `crud.QUANTITY_PATTERN`: `\s*(ml|cl|dl|l|mg|g|kg|st)$`. The
whitespace is skipped greedily (no unit contains whitespace, so the regex engine
never has to backtrack into `\s*`), and the anchored alternation succeeds exactly
when the remaining characters equal one of the units; the units are pairwise
distinct so at most one alternative can succeed. The input reaching this matcher is
already lower-cased, which makes the `re.IGNORECASE` flag immaterial. -/
def matchUnitEnd (s : Str) : Option Str :=
  let rest := s.dropWhile Char.isWhitespace
  VALID_QUANTITY_UNITS.find? (fun u => rest == u)

/-- Group 1 of `crud.QUANTITY_PATTERN.match(compact)`, i.e. of the anchored regex
`^\d+(?:[\.,]\d+)?\s*(ml|cl|dl|l|mg|g|kg|st)$`. The greedy deterministic reading
below coincides with the regex's backtracking semantics: no unit starts with a
digit, a dot, a comma, or whitespace, so shortening either `\d+` run or skipping a
successfully started fraction can never turn a failed match into a successful one. -/
def matchQuantity (s : Str) : Option Str :=
  let intPart := s.takeWhile Char.isDigit
  let rest := s.dropWhile Char.isDigit
  if intPart.isEmpty then none
  else if rest.isEmpty then none
  else
    let c := rest.headD ' '
    let rest2 := rest.tail
    if c == '.' || c == ',' then
      let frac := rest2.takeWhile Char.isDigit
      if frac.isEmpty then none
      else matchUnitEnd (rest2.dropWhile Char.isDigit)
    else matchUnitEnd rest

/-- The `ValueError` message of `_normalize_quantity` for a failed pattern match. -/
def quantity_error_message : Str :=
  "Quantity must use EU units like ml, dl, l, g, or kg (example: 2 dl)".data

/-- The `ValueError` message of `_normalize_quantity` for a matched unit that is not
in `VALID_QUANTITY_UNITS` (defensive branch of the source). -/
def unsupported_unit_message : Str := "Unsupported quantity unit".data

/-- Model of Python `str.replace(",", ".")` (the replaced text is a single char). -/
def replaceCommaDot (s : Str) : Str := s.map (fun c => if c == ',' then '.' else c)

/-- `crud._normalize_quantity(raw_quantity)`. `none` input models `None`;
`Except.error` models a raised `ValueError`; `Except.ok none` models returning
`None` for blank input. -/
def normalize_quantity (raw_quantity : Option Str) : Except Str (Option Str) :=
  let value := toLowerStr (pyStrip (raw_quantity.getD []))
  if value.isEmpty then Except.ok none
  else
    let compact := removeWhitespace value
    if (matchQuantity compact).isNone then Except.error quantity_error_message
    else
      let unit := toLowerStr ((matchQuantity compact).getD [])
      if VALID_QUANTITY_UNITS.contains unit then
        Except.ok (some (replaceCommaDot
          (compact.take (compact.length - unit.length) ++ ' ' :: unit)))
      else Except.error unsupported_unit_message

/-- Specification-side shape of the number part of a quantity, from the spec's words:
one or more digits, optionally a decimal fraction separated by a dot or a comma. -/
def isNumberShape (s : Str) : Bool :=
  let intPart := s.takeWhile Char.isDigit
  let rest := s.dropWhile Char.isDigit
  if intPart.isEmpty then false
  else if rest.isEmpty then true
  else
    let c := rest.headD ' '
    let rest2 := rest.tail
    (c == '.' || c == ',') && !rest2.isEmpty && rest2.all Char.isDigit

/-- Specification-side decomposition of a compact (lower-cased, whitespace-free)
quantity string, from the spec's words: a number shape followed immediately by a
unit drawn from the fixed unit set. Returns the number part and the unit. -/
def quantitySpecSplit (s : Str) : Option (Str × Str) :=
  VALID_QUANTITY_UNITS.findSome? (fun u =>
    let p := s.take (s.length - u.length)
    if s.drop (s.length - u.length) == u && isNumberShape p then some (p, u) else none)

/-- `startsWithSeq s n` is true when `n` is a leading run of `s`. -/
def startsWithSeq : Str → Str → Bool
  | _, [] => true
  | [], _ :: _ => false
  | c :: s, n :: ns => c == n && startsWithSeq s ns

/-- `containsSeq needle hay` is true when `needle` occurs contiguously in `hay`;
used to express that an error message names a given unit. -/
def containsSeq (needle : Str) : Str → Bool
  | [] => needle.isEmpty
  | c :: rest => startsWithSeq (c :: rest) needle || containsSeq needle rest

/-- Characters on which `crud._split_terms` splits: the class `[,;:\n]`. -/
def isDelim (c : Char) : Bool := c == ',' || c == ';' || c == ':' || c == '\n'

/-- `crud._split_terms(query)`: split on `[,;:\n]+`, strip each piece, drop empties.
Splitting on single delimiters instead of delimiter runs only introduces extra empty
pieces, and empties are dropped, so this coincides with the source's split. -/
def split_terms (query : Str) : List Str :=
  ((query.splitOnP isDelim).map pyStrip).filter (fun t => !t.isEmpty)

/-- `crud._split_names(value)` just delegates to `_split_terms`. -/
def split_names (value : Str) : List Str := split_terms value

/-- The name-normalization inner loop shared by `_extract_unique_names` and
`_extract_ingredient_entries`: split the field, strip and lower-case each piece,
drop blanks, preserving order. -/
def normalizedNames (value : Str) : List Str :=
  (split_names value).filterMap (fun raw =>
    let normalized := toLowerStr (pyStrip raw)
    if normalized.isEmpty then none else some normalized)

/-- `schemas.TagCreate`: a tag form entry carrying one (possibly multi-name) field. -/
structure TagCreate where
  name : Str
deriving DecidableEq

/-- `schemas.IngredientCreate`: an ingredient form entry with a name field and an
optional quantity string. -/
structure IngredientCreate where
  name : Str
  quantity : Option Str
deriving DecidableEq

/-- The duplicate-collection loop of `_extract_unique_names` and
`_extract_ingredient_entries`: iterate the names; a name already seen and not yet
recorded is appended to the duplicates list; every name is added to `seen`. -/
def collectDupAux : List Str → List Str → List Str → List Str
  | [], _, dups => dups
  | n :: rest, seen, dups =>
    if seen.contains n && !(dups.contains n) then
      collectDupAux rest (n :: seen) (dups ++ [n])
    else collectDupAux rest (n :: seen) dups

def collect_duplicates (names : List Str) : List Str := collectDupAux names [] []

/-- The f-string `f"Duplicate {field_label}: {', '.join(duplicates)}"`. -/
def duplicate_message (field_label : Str) (dups : List Str) : Str :=
  "Duplicate ".data ++ field_label ++ ": ".data ++ List.intercalate ", ".data dups

/-- The flattened, normalized name sequence a list of tag entries produces. -/
def tagFlattenedNames (items : List TagCreate) : List Str :=
  items.flatMap (fun item => normalizedNames item.name)

/-- The flattened, normalized name sequence a list of ingredient entries produces. -/
def ingredientFlattenedNames (items : List IngredientCreate) : List Str :=
  items.flatMap (fun item => normalizedNames item.name)

/-- `crud._extract_unique_names(items, field_label)`. -/
def extract_unique_names (items : List TagCreate) (field_label : Str) :
    Except Str (List Str) :=
  let names := tagFlattenedNames items
  let duplicates := collect_duplicates names
  if duplicates.isEmpty then Except.ok names
  else Except.error (duplicate_message field_label duplicates)

/-- `crud._extract_ingredient_entries(items)`: normalize each item's quantity (a
raise propagates out of the loop), pair each of the item's split names with that
quantity, then run the duplicate check on the flattened name sequence. -/
def extract_ingredient_entries (items : List IngredientCreate) :
    Except Str (List (Str × Option Str)) := do
  let entryLists ← items.mapM (fun item => do
    let quantity ← normalize_quantity item.quantity
    pure ((normalizedNames item.name).map (fun n => (n, quantity))))
  let entries := entryLists.flatten
  let names := entries.map Prod.fst
  let duplicates := collect_duplicates names
  if duplicates.isEmpty then pure entries
  else Except.error (duplicate_message "ingredients".data duplicates)

/-- Specification-side stream of duplicate instances: every occurrence whose value
already occurred earlier (with `seen` the values occurring before), in order. -/
def duplicateInstancesAux (seen : List Str) : List Str → List Str
  | [] => []
  | n :: rest =>
    if seen.contains n then n :: duplicateInstancesAux (n :: seen) rest
    else duplicateInstancesAux (n :: seen) rest

def duplicateInstances (l : List Str) : List Str := duplicateInstancesAux [] l

/-- Specification-side first-seen deduplication: keep only the first occurrence of
each value, in order of first appearance (`kept` are values already emitted). -/
def firstSeenDedupAux (kept : List Str) : List Str → List Str
  | [] => []
  | n :: rest =>
    if kept.contains n then firstSeenDedupAux kept rest
    else n :: firstSeenDedupAux (n :: kept) rest

def firstSeenDedup (l : List Str) : List Str := firstSeenDedupAux [] l

/-- Scalar row of the `recipes` table (`models.Recipe`). -/
structure RecipeRow where
  id : Nat
  title : Str
  description : Option Str
  instructions : Option Str
  prep_time : Option Int
  cook_time : Option Int
deriving DecidableEq

/-- Row of the `ingredients` table (`models.Ingredient`). -/
structure IngredientRow where
  id : Nat
  name : Str
deriving DecidableEq

/-- Row of the `tags` table (`models.Tag`). -/
structure TagRow where
  id : Nat
  name : Str
deriving DecidableEq

/-- Row of the `recipe_ingredients` association table, carrying the per-pair
quantity (`models.RecipeIngredient`). -/
structure RecipeIngredientRow where
  recipe_id : Nat
  ingredient_id : Nat
  quantity : Option Str
deriving DecidableEq

/-- The relational store as seen by the recipe and favorite operations: one list
per table, plus the id sequence `flush` draws from for newly inserted rows. -/
structure DB where
  recipes : List RecipeRow
  ingredients : List IngredientRow
  tags : List TagRow
  recipe_ingredients : List RecipeIngredientRow
  recipe_tags : List (Nat × Nat)
  recipe_authors : List (Nat × Nat)
  recipe_favorites : List (Nat × Nat)
  next_id : Nat
deriving DecidableEq

/-- A SQLAlchemy session: `committed` is the persisted state, `pending` the
transaction's working state (flushed-but-uncommitted changes included; queries in
the transaction see it). Closing the session without commit — what `get_db` does
when a `ValueError` propagates — discards `pending`. -/
structure Sess where
  committed : DB
  pending : DB
deriving DecidableEq

/-- A session computation. A Python `raise` is the error case; the state is
threaded through errors so the committed store at the moment of the raise is what
persists. -/
def M (α : Type) : Type := Sess → Except Str α × Sess

instance : Monad M where
  pure a := fun s => (Except.ok a, s)
  bind x f := fun s =>
    match x s with
    | (Except.ok a, s2) => f a s2
    | (Except.error e, s2) => (Except.error e, s2)

def getPending : M DB := fun s => (Except.ok s.pending, s)

def modifyPending (f : DB → DB) : M Unit := fun s =>
  (Except.ok (), { s with pending := f s.pending })

def throwM {α : Type} (e : Str) : M α := fun s => (Except.error e, s)

/-- `db.commit()`: make the pending state durable. -/
def commitM : M Unit := fun s =>
  (Except.ok (), { committed := s.pending, pending := s.pending })

/-- Run a pure `Except` computation (a helper that may raise) in the session. -/
def liftExcept {α : Type} (e : Except Str α) : M α := fun s => (e, s)

/-- Run a session computation against a persisted store; the returned store is
what is durable after the session closes (uncommitted pending changes are
discarded by the session close in `get_db`). -/
def runSession {α : Type} (m : M α) (db : DB) : Except Str α × DB :=
  let r := m { committed := db, pending := db }
  (r.1, r.2.committed)

/-- `db.query(Ingredient).filter(func.lower(Ingredient.name) == name).first()`. -/
def queryIngredientByLoweredName (d : DB) (name : Str) : Option IngredientRow :=
  d.ingredients.find? (fun i => toLowerStr i.name == name)

/-- `db.query(Tag).filter(func.lower(Tag.name) == name).first()`. -/
def queryTagByLoweredName (d : DB) (name : Str) : Option TagRow :=
  d.tags.find? (fun t => toLowerStr t.name == name)

/-- `db.query(Recipe).filter(Recipe.id == recipe_id).first()` (the eager-loading
options only affect how related rows are fetched, not which row is returned). -/
def queryRecipeById (d : DB) (recipe_id : Nat) : Option RecipeRow :=
  d.recipes.find? (fun r => r.id == recipe_id)

/-- `schemas.RecipeCreate`: the recipe write payload. -/
structure RecipeCreate where
  title : Str
  description : Option Str
  instructions : Option Str
  prep_time : Option Int
  cook_time : Option Int
  ingredients : List IngredientCreate
  tags : List TagCreate
deriving DecidableEq

/-- `db.add(Recipe(**recipe_data)); db.flush()`: insert the scalar row, the flush
assigning its primary key from the id sequence. Returns the new id. -/
def insertRecipeRow (recipe : RecipeCreate) (d : DB) : DB :=
  let row : RecipeRow :=
    { id := d.next_id, title := recipe.title, description := recipe.description,
      instructions := recipe.instructions, prep_time := recipe.prep_time,
      cook_time := recipe.cook_time }
  { d with recipes := d.recipes ++ [row], next_id := d.next_id + 1 }

def addRecipeRow (recipe : RecipeCreate) : M Nat := fun s =>
  (Except.ok s.pending.next_id, { s with pending := insertRecipeRow recipe s.pending })

/-- The ingredient-resolution loop of `create_recipe`/`update_recipe`: look every
entry name up by lowered name; found rows are collected together with their names
(the `ingredients` list and `ingredient_by_name` dict), names without a match are
collected into the missing list. -/
def resolveIngredients (d : DB) (entries : List (Str × Option Str)) :
    List (Str × IngredientRow) × List Str :=
  entries.foldl (fun acc e =>
    match queryIngredientByLoweredName d e.1 with
    | some row => (acc.1 ++ [(e.1, row)], acc.2)
    | none => (acc.1, acc.2 ++ [e.1])) ([], [])

/-- Python `sorted(set(missing_ingredients))`: the distinct missing names in
lexicographic order (Lean's `List Char` order compares code points, as Python
does for `str`). -/
def sortedDedupStr (l : List Str) : List Str :=
  List.insertionSort (fun a b => a ≤ b) (firstSeenDedup l)

/-- The f-string of the missing-ingredient `ValueError`. -/
def unknown_ingredients_message (unique_missing : List Str) : Str :=
  "Unknown ingredients: ".data ++ List.intercalate ", ".data unique_missing ++
    ". Add them to the ingredient list first.".data

/-- `db.add(Tag(name=name)); db.flush()`: auto-create a tag row. -/
def createTagRow (name : Str) : M Nat := fun s =>
  let tid := s.pending.next_id
  (Except.ok tid, { s with pending := { s.pending with
      tags := s.pending.tags ++ [{ id := tid, name := name }],
      next_id := tid + 1 } })

/-- The tag-resolution loop: each (already deduplicated) tag name resolves to an
existing row or a freshly created one; collects the tag ids in order. -/
def resolveTags : List Str → M (List Nat)
  | [] => pure []
  | n :: rest => do
    let d ← getPending
    match queryTagByLoweredName d n with
    | some t => do
      let ids ← resolveTags rest
      pure (t.id :: ids)
    | none => do
      let tid ← createTagRow n
      let ids ← resolveTags rest
      pure (tid :: ids)

/-- `db_recipe.ingredients = ingredients` followed by `db.flush()`: the ORM keeps
association rows whose ingredient remains in the new set (old quantity intact),
deletes the rest, and inserts rows with NULL quantity for newly associated
ingredients. -/
def setRecipeIngredientLinks (recipe_id : Nat) (ingredient_ids : List Nat) : M Unit :=
  modifyPending (fun d =>
    let kept := d.recipe_ingredients.filter (fun row =>
      !(row.recipe_id == recipe_id) || ingredient_ids.contains row.ingredient_id)
    let fresh := (ingredient_ids.filter (fun i => !(d.recipe_ingredients.any (fun row =>
      row.recipe_id == recipe_id && row.ingredient_id == i)))).map
      (fun i => { recipe_id := recipe_id, ingredient_id := i, quantity := none :
        RecipeIngredientRow })
    { d with recipe_ingredients := kept ++ fresh })

/-- `db_recipe.tags = tags` with flush: replace the recipe's tag association set. -/
def setRecipeTagLinks (recipe_id : Nat) (tag_ids : List Nat) : M Unit :=
  modifyPending (fun d =>
    let kept := d.recipe_tags.filter (fun rt =>
      !(rt.1 == recipe_id) || tag_ids.contains rt.2)
    let fresh := (tag_ids.filter (fun t => !(d.recipe_tags.any (fun rt =>
      rt.1 == recipe_id && rt.2 == t)))).map (fun t => (recipe_id, t))
    { d with recipe_tags := kept ++ fresh })

/-- `crud._apply_recipe_ingredient_quantities`: for every entry, resolve the row
through `ingredient_by_name` and overwrite that association row's quantity (a pure
overwrite; missing dict entries are skipped). -/
def apply_recipe_ingredient_quantities (recipe_id : Nat)
    (entries : List (Str × Option Str)) (byName : List (Str × IngredientRow)) :
    M Unit :=
  modifyPending (fun d =>
    let rows2 := entries.foldl (fun rows e =>
      match (byName.find? (fun p => p.1 == e.1)).map Prod.snd with
      | none => rows
      | some ing => rows.map (fun row =>
          if row.recipe_id == recipe_id && row.ingredient_id == ing.id then
            { row with quantity := e.2 }
          else row)) d.recipe_ingredients
    { d with recipe_ingredients := rows2 })

/-- `db.add(RecipeAuthor(recipe_id=..., user_id=...))`. -/
def addRecipeAuthor (recipe_id user_id : Nat) : M Unit :=
  modifyPending (fun d =>
    { d with recipe_authors := d.recipe_authors ++ [(recipe_id, user_id)] })

/-- `crud.create_recipe(db, recipe, user_id)`. The decorations attached after the
commit (`db.refresh` and the `_attach_*` helpers) only read the store and set
response-object fields, so they are omitted. Returns the new recipe id. -/
def create_recipe (recipe : RecipeCreate) (user_id : Nat) : M Nat := do
  let rid ← addRecipeRow recipe
  let entries ← liftExcept (extract_ingredient_entries recipe.ingredients)
  let d ← getPending
  let resolved := resolveIngredients d entries
  if resolved.2.isEmpty then do
    let tag_names ← liftExcept (extract_unique_names recipe.tags "tags".data)
    let tag_ids ← resolveTags tag_names
    setRecipeIngredientLinks rid (resolved.1.map (fun p => p.2.id))
    setRecipeTagLinks rid tag_ids
    apply_recipe_ingredient_quantities rid entries resolved.1
    addRecipeAuthor rid user_id
    commitM
    pure rid
  else
    throwM (unknown_ingredients_message (sortedDedupStr resolved.2))

/-- The scalar-field assignment of `update_recipe` (`setattr` per field) applied
to the store. -/
def applyScalarUpdate (recipe_id : Nat) (recipe : RecipeCreate) (d : DB) : DB :=
  let recipes2 := d.recipes.map (fun r =>
    if r.id == recipe_id then
      { r with
        title := recipe.title
        description := recipe.description
        instructions := recipe.instructions
        prep_time := recipe.prep_time
        cook_time := recipe.cook_time }
    else r)
  { d with recipes := recipes2 }

/-- The scalar-field update loop of `update_recipe`. -/
def updateRecipeScalarRow (recipe_id : Nat) (recipe : RecipeCreate) : M Unit :=
  modifyPending (applyScalarUpdate recipe_id recipe)

/-- `crud.update_recipe(db, recipe_id, recipe)`: `none` models returning `None`
when the recipe does not exist; otherwise the same pipeline as create, without the
author link. -/
def update_recipe (recipe_id : Nat) (recipe : RecipeCreate) : M (Option Nat) := do
  let d0 ← getPending
  match queryRecipeById d0 recipe_id with
  | none => pure none
  | some _ => do
    updateRecipeScalarRow recipe_id recipe
    let entries ← liftExcept (extract_ingredient_entries recipe.ingredients)
    let d ← getPending
    let resolved := resolveIngredients d entries
    if resolved.2.isEmpty then do
      let tag_names ← liftExcept (extract_unique_names recipe.tags "tags".data)
      let tag_ids ← resolveTags tag_names
      setRecipeIngredientLinks recipe_id (resolved.1.map (fun p => p.2.id))
      setRecipeTagLinks recipe_id tag_ids
      apply_recipe_ingredient_quantities recipe_id entries resolved.1
      commitM
      pure (some recipe_id)
    else
      throwM (unknown_ingredients_message (sortedDedupStr resolved.2))

/-- A small store with one catalog ingredient and one recipe, used as a concrete
evaluation point for witnesses. -/
def sampleRecipeRow : RecipeRow :=
  { id := 3, title := "toast".data, description := none, instructions := none,
    prep_time := none, cook_time := none }

def sampleDB : DB :=
  { recipes := [sampleRecipeRow],
    ingredients := [{ id := 1, name := "butter".data }],
    tags := [],
    recipe_ingredients := [{ recipe_id := 3, ingredient_id := 1, quantity := none }],
    recipe_tags := [],
    recipe_authors := [(3, 1)],
    recipe_favorites := [],
    next_id := 10 }

/-- A recipe payload referencing an ingredient missing from `sampleDB`. -/
def missingIngredientRecipe : RecipeCreate :=
  { title := "cake".data, description := none, instructions := none,
    prep_time := none, cook_time := none,
    ingredients := [⟨"flour".data, none⟩], tags := [] }

/-- A recipe payload that both duplicates the cataloged `butter` and references
the missing `flour`. -/
def dupAndMissingRecipe : RecipeCreate :=
  { title := "cake".data, description := none, instructions := none,
    prep_time := none, cook_time := none,
    ingredients := [⟨"butter, butter".data, none⟩, ⟨"flour".data, none⟩], tags := [] }

/-- `crud.add_recipe_favorite(db, recipe_id, user_id)`: `none` models returning
`None` (recipe not found); otherwise the favorite row is inserted only when absent
and the returned value carries the recipe id. -/
def add_recipe_favorite (d : DB) (recipe_id user_id : Nat) : Option Nat × DB :=
  match queryRecipeById d recipe_id with
  | none => (none, d)
  | some _ =>
    match d.recipe_favorites.find? (fun f => f.1 == recipe_id && f.2 == user_id) with
    | some _ => (some recipe_id, d)
    | none => (some recipe_id,
        { d with recipe_favorites := d.recipe_favorites ++ [(recipe_id, user_id)] })

/-- `crud.remove_recipe_favorite(db, recipe_id, user_id)`: deletes the favorite
row when present; in every case returns `{"recipe_id": recipe_id}`. -/
def remove_recipe_favorite (d : DB) (recipe_id user_id : Nat) : Nat × DB :=
  match d.recipe_favorites.find? (fun f => f.1 == recipe_id && f.2 == user_id) with
  | none => (recipe_id, d)
  | some fav => (recipe_id, { d with recipe_favorites := d.recipe_favorites.erase fav })

theorem takeWhile_append_all {p : Char → Bool} {l1 : Str} (l2 : Str) (h : ∀ c ∈ l1, p c = true) :
    (l1 ++ l2).takeWhile p = l1 ++ l2.takeWhile p := by
  induction l1 with
  | nil => simp
  | cons a t ih =>
    have ha := h a (by simp)
    simp only [List.cons_append, List.takeWhile_cons, ha, if_true]
    rw [ih (fun c hc => h c (by simp [hc]))]

theorem dropWhile_append_all {p : Char → Bool} {l1 : Str} (l2 : Str) (h : ∀ c ∈ l1, p c = true) :
    (l1 ++ l2).dropWhile p = l2.dropWhile p := by
  induction l1 with
  | nil => simp
  | cons a t ih =>
    have ha := h a (by simp)
    simp only [List.cons_append, List.dropWhile_cons, ha, if_true]
    exact ih (fun c hc => h c (by simp [hc]))

theorem dropWhile_eq_self_of_all {p : Char → Bool} {l : Str} (h : ∀ c ∈ l, p c = false) :
    l.dropWhile p = l := by
  cases l with
  | nil => rfl
  | cons a t =>
    exact List.dropWhile_cons_of_neg (by simp [h a (by simp)])

theorem unit_chars : ∀ u ∈ VALID_QUANTITY_UNITS, u ≠ [] ∧ ∀ c ∈ u,
    c.isDigit = false ∧ c ≠ '.' ∧ c ≠ ',' ∧ c.isWhitespace = false := by decide

theorem unit_lower : ∀ u ∈ VALID_QUANTITY_UNITS, toLowerStr u = u := by decide

theorem unit_nocomma : ∀ u ∈ VALID_QUANTITY_UNITS, replaceCommaDot u = u := by decide

theorem matchUnitEnd_self : ∀ u ∈ VALID_QUANTITY_UNITS, matchUnitEnd u = some u := by decide

theorem unit_len : ∀ u ∈ VALID_QUANTITY_UNITS, u.length = 1 ∨ u.length = 2 := by decide

theorem unit_mem_contains : ∀ u ∈ VALID_QUANTITY_UNITS, VALID_QUANTITY_UNITS.contains u = true := by
  decide

theorem matchUnitEnd_eq_some {s u : Str} (hs : ∀ c ∈ s, c.isWhitespace = false)
    (h : matchUnitEnd s = some u) : u ∈ VALID_QUANTITY_UNITS ∧ s = u := by
  simp only [matchUnitEnd] at h
  rw [dropWhile_eq_self_of_all hs] at h
  refine ⟨List.mem_of_find?_eq_some h, ?_⟩
  have := List.find?_some h
  simpa using this

theorem matchQuantity_of_split {p u : Str} (hu : u ∈ VALID_QUANTITY_UNITS)
    (hp : isNumberShape p = true) : matchQuantity (p ++ u) = some u := by
  obtain ⟨hune, hchars⟩ := unit_chars u hu
  obtain ⟨c0, u', hu0⟩ : ∃ c0 u', u = c0 :: u' := by
    cases u with
    | nil => exact absurd rfl hune
    | cons a b => exact ⟨a, b, rfl⟩
  have hc0 := hchars c0 (by simp [hu0])
  have htw := List.takeWhile_append_dropWhile Char.isDigit p
  have hipd : ∀ c ∈ p.takeWhile Char.isDigit, Char.isDigit c = true :=
    fun c hc => List.mem_takeWhile_imp hc
  have hcc : (c0 == '.' || c0 == ',') = false := by
    simp [hc0.2.1, hc0.2.2.1]
  simp only [isNumberShape] at hp
  by_cases hie : (p.takeWhile Char.isDigit).isEmpty = true
  · rw [if_pos hie] at hp; exact absurd hp (by simp)
  rw [if_neg hie] at hp
  cases hr : p.dropWhile Char.isDigit with
  | nil =>
    rw [hr, List.append_nil] at htw
    have hpd : ∀ c ∈ p, Char.isDigit c = true := by
      intro c hc; rw [← htw] at hc; exact List.mem_takeWhile_imp hc
    have h1 : (p ++ c0 :: u').takeWhile Char.isDigit = p := by
      rw [takeWhile_append_all _ hpd, List.takeWhile_cons_of_neg (by simp [hc0.1]),
        List.append_nil]
    have h2 : (p ++ c0 :: u').dropWhile Char.isDigit = c0 :: u' := by
      rw [dropWhile_append_all _ hpd, List.dropWhile_cons_of_neg (by simp [hc0.1])]
    have hpe : p.isEmpty = false := by rw [← htw]; simpa using hie
    simp only [matchQuantity, hu0, h1, h2, hpe, Bool.false_eq_true, if_false,
      List.isEmpty_cons, List.headD_cons, List.tail_cons, hcc]
    rw [← hu0]
    exact matchUnitEnd_self u hu
  | cons c r2 =>
    rw [hr] at hp
    simp only [List.isEmpty_cons, Bool.false_eq_true, if_false, List.headD_cons,
      List.tail_cons] at hp
    have hcsep : (c == '.' || c == ',') = true := by
      rcases Bool.and_eq_true _ _ |>.mp hp with ⟨h1, _⟩
      exact (Bool.and_eq_true _ _ |>.mp h1).1
    have hr2ne : r2.isEmpty = false := by
      rcases Bool.and_eq_true _ _ |>.mp hp with ⟨h1, _⟩
      have := (Bool.and_eq_true _ _ |>.mp h1).2
      simpa using this
    have hr2d : ∀ x ∈ r2, Char.isDigit x = true := by
      rcases Bool.and_eq_true _ _ |>.mp hp with ⟨_, h2⟩
      exact fun x hx => List.all_eq_true.mp h2 x hx
    have hcnd : Char.isDigit c = false := by
      rcases Bool.or_eq_true _ _ |>.mp hcsep with h | h
      · rw [eq_of_beq h]; decide
      · rw [eq_of_beq h]; decide
    have hsplit : p ++ c0 :: u' = p.takeWhile Char.isDigit ++ (c :: (r2 ++ c0 :: u')) := by
      conv_lhs => rw [← htw, hr]
      simp
    have h1 : (p ++ c0 :: u').takeWhile Char.isDigit = p.takeWhile Char.isDigit := by
      rw [hsplit, takeWhile_append_all _ hipd, List.takeWhile_cons_of_neg (by simp [hcnd]),
        List.append_nil]
    have h2 : (p ++ c0 :: u').dropWhile Char.isDigit = c :: (r2 ++ c0 :: u') := by
      rw [hsplit, dropWhile_append_all _ hipd, List.dropWhile_cons_of_neg (by simp [hcnd])]
    have h3 : (r2 ++ c0 :: u').takeWhile Char.isDigit = r2 := by
      rw [takeWhile_append_all _ hr2d, List.takeWhile_cons_of_neg (by simp [hc0.1]),
        List.append_nil]
    have h4 : (r2 ++ c0 :: u').dropWhile Char.isDigit = c0 :: u' := by
      rw [dropWhile_append_all _ hr2d, List.dropWhile_cons_of_neg (by simp [hc0.1])]
    have hie2 : (p.takeWhile Char.isDigit).isEmpty = false := by simpa using hie
    simp only [matchQuantity, hu0, h1, h2, h3, h4, hie2, hcsep, hr2ne,
      Bool.false_eq_true, if_false, if_true, List.isEmpty_cons, List.headD_cons,
      List.tail_cons]
    rw [← hu0]
    exact matchUnitEnd_self u hu

theorem split_of_matchQuantity {s u : Str} (hs : ∀ c ∈ s, c.isWhitespace = false)
    (h : matchQuantity s = some u) :
    u ∈ VALID_QUANTITY_UNITS ∧ ∃ p, s = p ++ u ∧ isNumberShape p = true := by
  have htw := List.takeWhile_append_dropWhile Char.isDigit s
  have hipd : ∀ c ∈ s.takeWhile Char.isDigit, Char.isDigit c = true :=
    fun c hc => List.mem_takeWhile_imp hc
  simp only [matchQuantity] at h
  by_cases hie : (s.takeWhile Char.isDigit).isEmpty = true
  · rw [if_pos hie] at h; exact absurd h (by simp)
  rw [if_neg hie] at h
  cases hr : s.dropWhile Char.isDigit with
  | nil => rw [hr] at h; simp at h
  | cons c r2 =>
    rw [hr] at h
    simp only [List.isEmpty_cons, Bool.false_eq_true, if_false, List.headD_cons,
      List.tail_cons] at h
    have hmemdrop : ∀ x ∈ c :: r2, x.isWhitespace = false := by
      intro x hx
      rw [← hr] at hx
      exact hs x ((List.dropWhile_sublist Char.isDigit).mem hx)
    by_cases hc : (c == '.' || c == ',') = true
    · rw [if_pos hc] at h
      have hcnd : Char.isDigit c = false := by
        rcases Bool.or_eq_true _ _ |>.mp hc with hx | hx
        · rw [eq_of_beq hx]; decide
        · rw [eq_of_beq hx]; decide
      by_cases hfe : (r2.takeWhile Char.isDigit).isEmpty = true
      · rw [if_pos hfe] at h; exact absurd h (by simp)
      rw [if_neg hfe] at h
      have hwf : ∀ x ∈ r2.dropWhile Char.isDigit, x.isWhitespace = false := by
        intro x hx
        exact hmemdrop x (by
          have : x ∈ r2 := (List.dropWhile_sublist Char.isDigit).mem hx
          simp [this])
      obtain ⟨hu, hequ⟩ := matchUnitEnd_eq_some hwf h
      refine ⟨hu, s.takeWhile Char.isDigit ++ c :: r2.takeWhile Char.isDigit, ?_, ?_⟩
      · calc s = s.takeWhile Char.isDigit ++ s.dropWhile Char.isDigit := htw.symm
        _ = s.takeWhile Char.isDigit ++ (c :: r2) := by rw [hr]
        _ = s.takeWhile Char.isDigit ++
            (c :: (r2.takeWhile Char.isDigit ++ r2.dropWhile Char.isDigit)) := by
              rw [List.takeWhile_append_dropWhile]
        _ = (s.takeWhile Char.isDigit ++ c :: r2.takeWhile Char.isDigit) ++
            r2.dropWhile Char.isDigit := by simp
        _ = (s.takeWhile Char.isDigit ++ c :: r2.takeWhile Char.isDigit) ++ u := by rw [hequ]
      · have hr2d : ∀ x ∈ r2.takeWhile Char.isDigit, Char.isDigit x = true :=
          fun x hx => List.mem_takeWhile_imp hx
        have hptw : (s.takeWhile Char.isDigit ++
            c :: r2.takeWhile Char.isDigit).takeWhile Char.isDigit =
            s.takeWhile Char.isDigit := by
          rw [takeWhile_append_all _ hipd, List.takeWhile_cons_of_neg (by simp [hcnd]),
            List.append_nil]
        have hpdw : (s.takeWhile Char.isDigit ++
            c :: r2.takeWhile Char.isDigit).dropWhile Char.isDigit =
            c :: r2.takeWhile Char.isDigit := by
          rw [dropWhile_append_all _ hipd, List.dropWhile_cons_of_neg (by simp [hcnd])]
        have hie2 : (s.takeWhile Char.isDigit).isEmpty = false := by simpa using hie
        have hfe2 : (r2.takeWhile Char.isDigit).isEmpty = false := by simpa using hfe
        simp only [isNumberShape, hptw, hpdw, hie2, Bool.false_eq_true, if_false,
          List.isEmpty_cons, List.headD_cons, List.tail_cons, hc, hfe2,
          Bool.true_and, Bool.not_false]
        exact List.all_eq_true.mpr hr2d
    · rw [if_neg hc] at h
      obtain ⟨hu, hequ⟩ := matchUnitEnd_eq_some hmemdrop h
      refine ⟨hu, s.takeWhile Char.isDigit, ?_, ?_⟩
      · rw [← hequ, ← hr, htw]
      · have htt : (s.takeWhile Char.isDigit).takeWhile Char.isDigit =
            s.takeWhile Char.isDigit := List.takeWhile_eq_self_iff.mpr hipd
        have htd : (s.takeWhile Char.isDigit).dropWhile Char.isDigit = [] :=
          List.dropWhile_eq_nil_iff.mpr hipd
        have hie2 : (s.takeWhile Char.isDigit).isEmpty = false := by simpa using hie
        simp [isNumberShape, htt, htd, hie2]

theorem numberShape_getLast {p : Str} (hp : isNumberShape p = true) :
    ∃ d, p.getLast? = some d ∧ d.isDigit = true := by
  have htw := List.takeWhile_append_dropWhile Char.isDigit p
  simp only [isNumberShape] at hp
  by_cases hie : (p.takeWhile Char.isDigit).isEmpty = true
  · rw [if_pos hie] at hp; exact absurd hp (by simp)
  rw [if_neg hie] at hp
  cases hr : p.dropWhile Char.isDigit with
  | nil =>
    rw [hr, List.append_nil] at htw
    have hne : p ≠ [] := by
      rw [← htw]
      exact List.isEmpty_eq_false.mp (by simpa using hie)
    refine ⟨p.getLast hne, List.getLast?_eq_getLast p hne, ?_⟩
    have hmem := List.getLast_mem hne
    have hmem2 : p.getLast hne ∈ p.takeWhile Char.isDigit := by rw [htw]; exact hmem
    exact List.mem_takeWhile_imp hmem2
  | cons c r2 =>
    rw [hr] at hp
    simp only [List.isEmpty_cons, Bool.false_eq_true, if_false, List.headD_cons,
      List.tail_cons] at hp
    have hr2ne : r2 ≠ [] := by
      rcases Bool.and_eq_true _ _ |>.mp hp with ⟨h1, _⟩
      have := (Bool.and_eq_true _ _ |>.mp h1).2
      simpa using this
    have hr2d : ∀ x ∈ r2, Char.isDigit x = true := by
      rcases Bool.and_eq_true _ _ |>.mp hp with ⟨_, h2⟩
      exact fun x hx => List.all_eq_true.mp h2 x hx
    refine ⟨r2.getLast hr2ne, ?_, hr2d _ (List.getLast_mem hr2ne)⟩
    have h1 : (c :: r2).getLast? = some (r2.getLast hr2ne) := by
      have : (c :: r2).getLast? = r2.getLast?.or [c].getLast? := by
        rw [show c :: r2 = [c] ++ r2 from rfl, List.getLast?_append]
      rw [this, List.getLast?_eq_getLast r2 hr2ne]
      rfl
    calc p.getLast? = (p.takeWhile Char.isDigit ++ (c :: r2)).getLast? := by rw [← hr, htw]
    _ = (c :: r2).getLast?.or (p.takeWhile Char.isDigit).getLast? := List.getLast?_append
    _ = some (r2.getLast hr2ne) := by rw [h1]; rfl

theorem findSome?_eq_some_of_unique {α β : Type} (f : α → Option β) {l : List α} {r : β}
    {x : α} (hx : x ∈ l) (hfx : f x = some r)
    (huniq : ∀ y ∈ l, f y = none ∨ f y = some r) : l.findSome? f = some r := by
  induction l with
  | nil => exact absurd hx (by simp)
  | cons a t ih =>
    rw [List.findSome?_cons]
    rcases huniq a (by simp) with ha | ha
    · rw [ha]
      rcases List.mem_cons.mp hx with rfl | hxt
      · exact absurd hfx (by simp [ha])
      · exact ih hxt (fun y hy => huniq y (by simp [hy]))
    · rw [ha]

theorem unit_overlap {u v p q : Str} (hu : u ∈ VALID_QUANTITY_UNITS)
    (hv : v ∈ VALID_QUANTITY_UNITS) (hp : isNumberShape p = true)
    (hq : isNumberShape q = true) (he : p ++ u = q ++ v) : p = q ∧ u = v := by
  have hlu := unit_len u hu
  have hlv := unit_len v hv
  have hvd := (unit_chars v hv).2
  have hud := (unit_chars u hu).2
  rcases hlu with h1 | h2 <;> rcases hlv with h1v | h2v
  · exact List.append_inj' he (by rw [h1, h1v])
  · obtain ⟨b, c, rfl⟩ := List.length_eq_two.mp h2v
    obtain ⟨a, rfl⟩ := List.length_eq_one.mp h1
    have he2 : p ++ [a] = (q ++ [b]) ++ [c] := by
      rw [he]; simp
    obtain ⟨hpq, _⟩ := List.append_inj' he2 rfl
    obtain ⟨d, hd1, hd2⟩ := numberShape_getLast hp
    rw [hpq, List.getLast?_concat] at hd1
    have hbd : b = d := by injection hd1
    have := (hvd b (by simp)).1
    rw [hbd, hd2] at this
    exact absurd this (by simp)
  · obtain ⟨b, c, rfl⟩ := List.length_eq_two.mp h2
    obtain ⟨a, rfl⟩ := List.length_eq_one.mp h1v
    have he2 : (p ++ [b]) ++ [c] = q ++ [a] := by
      rw [← he]; simp
    obtain ⟨hpq, _⟩ := List.append_inj' he2 rfl
    obtain ⟨d, hd1, hd2⟩ := numberShape_getLast hq
    rw [← hpq, List.getLast?_concat] at hd1
    have hbd : b = d := by injection hd1
    have := (hud b (by simp)).1
    rw [hbd, hd2] at this
    exact absurd this (by simp)
  · exact List.append_inj' he (by rw [h2, h2v])

theorem quantitySpecSplit_eq_some {p u : Str} (hu : u ∈ VALID_QUANTITY_UNITS)
    (hp : isNumberShape p = true) : quantitySpecSplit (p ++ u) = some (p, u) := by
  have hlen : (p ++ u).length - u.length = p.length := by simp
  have hfu : (fun v =>
      let q := (p ++ u).take ((p ++ u).length - v.length)
      if (p ++ u).drop ((p ++ u).length - v.length) == v && isNumberShape q then
        some (q, v) else none) u = some (p, u) := by
    simp only [hlen, List.take_left, List.drop_left, beq_self_eq_true, hp, Bool.and_true,
      if_true]
  refine findSome?_eq_some_of_unique _ hu hfu ?_
  intro v hv
  by_cases hcond : ((p ++ u).drop ((p ++ u).length - v.length) == v &&
      isNumberShape ((p ++ u).take ((p ++ u).length - v.length))) = true
  · right
    obtain ⟨hdrop, hshape⟩ := Bool.and_eq_true _ _ |>.mp hcond
    have hdec : (p ++ u).take ((p ++ u).length - v.length) ++ v = p ++ u := by
      conv_rhs => rw [← List.take_append_drop ((p ++ u).length - v.length) (p ++ u)]
      rw [eq_of_beq hdrop]
    obtain ⟨hq, hvu⟩ := unit_overlap hv hu hshape hp hdec
    rw [hvu]
    exact hfu
  · left
    exact if_neg hcond

theorem quantitySpecSplit_some_elim {s p u : Str}
    (h : quantitySpecSplit s = some (p, u)) :
    u ∈ VALID_QUANTITY_UNITS ∧ s = p ++ u ∧ isNumberShape p = true := by
  obtain ⟨v, hv, hfv⟩ := List.exists_of_findSome?_eq_some h
  by_cases hcond : (s.drop (s.length - v.length) == v &&
      isNumberShape (s.take (s.length - v.length))) = true
  · have hfv2 : some (s.take (s.length - v.length), v) = some (p, u) := by
      rw [← hfv]
      exact (if_pos hcond).symm
    have hinj := Option.some.inj hfv2
    have htake : s.take (s.length - v.length) = p := congrArg Prod.fst hinj
    have hveq : v = u := congrArg Prod.snd hinj
    obtain ⟨hdrop, hshape⟩ := Bool.and_eq_true _ _ |>.mp hcond
    subst hveq
    refine ⟨hv, ?_, htake ▸ hshape⟩
    conv_lhs => rw [← List.take_append_drop (s.length - v.length) s]
    rw [eq_of_beq hdrop, htake]
  · have hno : (none : Option (Str × Str)) = some (p, u) := by
      rw [← hfv]
      exact (if_neg hcond).symm
    exact absurd hno (by simp)

/-- C1: for input that is blank after stripping (or absent), `_normalize_quantity`
returns `None` without error; for non-blank input whose lower-cased,
whitespace-free form decomposes (per the spec's grammar `quantitySpecSplit`) into a
number followed by a unit of the fixed set, it succeeds and returns
`"<number> <unit>"` with one separating space, the unit lower-cased, and commas
replaced by dots; for every other non-blank input it raises the `ValueError`. -/
theorem c1_quantity_normalization (raw : Option Str) :
    (pyStrip (raw.getD []) = [] → normalize_quantity raw = Except.ok none) ∧
    (pyStrip (raw.getD []) ≠ [] →
      (∀ p u, quantitySpecSplit (removeWhitespace (toLowerStr (pyStrip (raw.getD [])))) =
          some (p, u) →
        u ∈ VALID_QUANTITY_UNITS ∧
        normalize_quantity raw = Except.ok (some (replaceCommaDot p ++ ' ' :: u))) ∧
      (quantitySpecSplit (removeWhitespace (toLowerStr (pyStrip (raw.getD [])))) = none →
        normalize_quantity raw = Except.error quantity_error_message)) := by
  constructor
  · intro h
    simp [normalize_quantity, toLowerStr, h]
  · intro hne
    have hve : (toLowerStr (pyStrip (raw.getD []))).isEmpty = false := by
      rw [List.isEmpty_eq_false]
      simp [toLowerStr, hne]
    have hwf : ∀ c ∈ removeWhitespace (toLowerStr (pyStrip (raw.getD []))),
        c.isWhitespace = false := by
      intro c hc
      have := (List.mem_filter.mp hc).2
      simpa using this
    constructor
    · intro p u hsp
      obtain ⟨hu, hcmp, hshape⟩ := quantitySpecSplit_some_elim hsp
      have hmatch : matchQuantity (removeWhitespace (toLowerStr (pyStrip (raw.getD [])))) =
          some u := by rw [hcmp]; exact matchQuantity_of_split hu hshape
      refine ⟨hu, ?_⟩
      have hlow := unit_lower u hu
      have hcont := unit_mem_contains u hu
      have htake : (removeWhitespace (toLowerStr (pyStrip (raw.getD [])))).take
          ((removeWhitespace (toLowerStr (pyStrip (raw.getD [])))).length - u.length) = p := by
        rw [hcmp, List.length_append, Nat.add_sub_cancel, List.take_left]
      have hrep : replaceCommaDot (p ++ ' ' :: u) = replaceCommaDot p ++ ' ' :: u := by
        simp only [replaceCommaDot, List.map_append, List.map_cons]
        have h1 : (if (' ' == ',') = true then '.' else ' ') = ' ' := by decide
        rw [h1]
        have h2 := unit_nocomma u hu
        simp only [replaceCommaDot] at h2
        rw [h2]
      simp only [normalize_quantity, hve, Bool.false_eq_true, if_false, hmatch,
        Option.isNone_some, Option.getD_some, hlow, hcont, if_true, htake, hrep]
    · intro hsp
      have hmatch : matchQuantity (removeWhitespace (toLowerStr (pyStrip (raw.getD [])))) =
          none := by
        cases hm : matchQuantity (removeWhitespace (toLowerStr (pyStrip (raw.getD [])))) with
        | none => rfl
        | some u =>
          obtain ⟨hu, q, hq, hsh⟩ := split_of_matchQuantity hwf hm
          rw [hq, quantitySpecSplit_eq_some hu hsh] at hsp
          exact absurd hsp (by simp)
      simp [normalize_quantity, hve, hmatch]

/-- Witness for C1 at the spec's own example input `"1,5 L"`. -/
theorem c1_quantity_normalization_witness :
    pyStrip ((some "1,5 L".data : Option Str).getD []) ≠ [] ∧
    normalize_quantity (some "1,5 L".data) = Except.ok (some "1.5 l".data) := by
  refine ⟨by decide, ?_⟩
  have h := ((c1_quantity_normalization (some "1,5 L".data)).2 (by decide)).1
    "1,5".data "l".data (by decide)
  have h2 : replaceCommaDot "1,5".data ++ ' ' :: "l".data = "1.5 l".data := by decide
  rw [← h2]
  exact h.2

/-- Counterexample for C8: the non-blank string `"2 cups"` fails to parse, but the
raised message does not name the accepted units `cl` and `mg` (not even as
substrings), so it does not name the accepted unit set
`{ml, cl, dl, l, mg, g, kg, st}`. -/
theorem c8_counterexample :
    normalize_quantity (some "2 cups".data) = Except.error quantity_error_message ∧
    containsSeq "cl".data quantity_error_message = false ∧
    containsSeq "mg".data quantity_error_message = false :=
  ⟨rfl, by decide, by decide⟩

/-- C8 (amended): every non-blank quantity string that fails to parse raises the one
fixed `ValueError` message naming the example units ml, dl, l, g, kg drawn from
the accepted set (the defensive `Unsupported quantity unit` branch is unreachable),
but that message does not name the complete accepted unit set: cl and mg are
absent from it. -/
theorem c8_error_names_example_units {raw : Str}
    (h : ∃ e, normalize_quantity (some raw) = Except.error e) :
    normalize_quantity (some raw) = Except.error quantity_error_message ∧
    containsSeq "ml".data quantity_error_message = true ∧
    containsSeq "dl".data quantity_error_message = true ∧
    containsSeq "l".data quantity_error_message = true ∧
    containsSeq "g".data quantity_error_message = true ∧
    containsSeq "kg".data quantity_error_message = true ∧
    containsSeq "cl".data quantity_error_message = false ∧
    containsSeq "mg".data quantity_error_message = false := by
  obtain ⟨e, he⟩ := h
  refine ⟨?_, by decide, by decide, by decide, by decide, by decide, by decide, by decide⟩
  by_cases hb : (toLowerStr (pyStrip raw)).isEmpty = true
  · rw [show normalize_quantity (some raw) = Except.ok none by
      simp [normalize_quantity, hb]] at he
    exact absurd he (by simp)
  · have hwf : ∀ c ∈ removeWhitespace (toLowerStr (pyStrip raw)),
        c.isWhitespace = false := by
      intro c hc
      have := (List.mem_filter.mp hc).2
      simpa using this
    cases hm : matchQuantity (removeWhitespace (toLowerStr (pyStrip raw))) with
    | none => simp [normalize_quantity, hb, hm]
    | some u =>
      exfalso
      have hu := (split_of_matchQuantity hwf hm).1
      have hlow := unit_lower u hu
      have hcont := unit_mem_contains u hu
      rw [show normalize_quantity (some raw) = Except.ok (some (replaceCommaDot
          ((removeWhitespace (toLowerStr (pyStrip raw))).take
            ((removeWhitespace (toLowerStr (pyStrip raw))).length - u.length) ++
            ' ' :: u))) by
        simp [normalize_quantity, hb, hm, hlow, hcont, hu]] at he
      exact absurd he (by simp)

/-- Row of the `online_device_presence` table (`models.OnlineDevicePresence`);
timestamps are modelled as integers (seconds). -/
structure OnlineDevicePresenceRow where
  device_id : Str
  user_id : Option Nat
  user_agent : Option Str
  last_seen_at : Int
deriving DecidableEq

/-- `crud.touch_online_device(db, device_id, user_id, user_agent)` at time `now`:
a blank device id is ignored; otherwise upsert by device id, with a supplied user
id or a non-blank user agent overwriting the stored value and the timestamp
refreshed. The device id is the primary key, so updating by device-id match
updates the single existing row. -/
def touch_online_device (rows : List OnlineDevicePresenceRow) (device_id : Str)
    (user_id : Option Nat) (user_agent : Option Str) (now : Int) :
    List OnlineDevicePresenceRow :=
  let normalized_device_id := pyStrip device_id
  if normalized_device_id.isEmpty then rows
  else
    let normalized_user_agent :=
      let t := pyStrip (user_agent.getD [])
      if t.isEmpty then none else some t
    match rows.find? (fun r => r.device_id == normalized_device_id) with
    | none =>
      let row : OnlineDevicePresenceRow :=
        { device_id := normalized_device_id, user_id := user_id,
          user_agent := normalized_user_agent, last_seen_at := now }
      rows ++ [row]
    | some _ => rows.map (fun r =>
        if r.device_id == normalized_device_id then
          { r with
            last_seen_at := now
            user_id := if user_id.isSome then user_id else r.user_id
            user_agent := if normalized_user_agent.isSome then normalized_user_agent
              else r.user_agent }
        else r)

/-- `crud.remove_online_device(db, device_id)`: a blank id is ignored; otherwise
the device's row, if present, is deleted. -/
def remove_online_device (rows : List OnlineDevicePresenceRow) (device_id : Str) :
    List OnlineDevicePresenceRow :=
  let normalized_device_id := pyStrip device_id
  if normalized_device_id.isEmpty then rows
  else
    match rows.find? (fun r => r.device_id == normalized_device_id) with
    | none => rows
    | some row => rows.erase row

/-- `max(30, int(window_seconds or 300))`: `or` yields 300 exactly when the
supplied window is 0. -/
def presence_safe_window (window_seconds : Int) : Int :=
  max 30 (if window_seconds = 0 then 300 else window_seconds)

/-- `threshold = datetime.utcnow() - timedelta(seconds=safe_window)`. -/
def presence_threshold (now window_seconds : Int) : Int :=
  now - presence_safe_window window_seconds

/-- Decimal character representation of a natural number, modelling the f-string
formatting of `int(user_id)` (ids are non-negative database keys). -/
def natRepr (n : Nat) : Str :=
  if n = 0 then ['0'] else (Nat.digits 10 n).reverse.map Nat.digitChar

/-- The dedup key string `get_online_device_count` builds for one presence row. -/
def presenceKey (r : OnlineDevicePresenceRow) : Str :=
  let normalized_agent := toLowerStr (pyStrip (r.user_agent.getD []))
  match r.user_id with
  | some uid =>
    if !normalized_agent.isEmpty then
      "user:".data ++ natRepr uid ++ ":agent:".data ++ normalized_agent
    else
      "user:".data ++ natRepr uid ++ ":device:".data ++ r.device_id
  | none => "anon:".data ++ r.device_id

/-- `crud.get_online_device_count(db, window_seconds)` at time `now`: select the
rows within the clamped trailing window and count the distinct key strings (the
Python set's size equals the deduplicated list's length). -/
def get_online_device_count (rows : List OnlineDevicePresenceRow)
    (now : Int) (window_seconds : Int) : Nat :=
  let recent := rows.filter (fun r => presence_threshold now window_seconds ≤ r.last_seen_at)
  ((recent.map presenceKey).dedup).length

/-- Specification-side structured dedup key, from the spec's words: `(user,
agent)` when the row has a user id and a non-blank user agent; `(user, device)`
when it has a user id only; and the device id alone for anonymous rows. -/
inductive PresenceKey where
  | byUserAgent (user_id : Nat) (agent : Str)
  | byUserDevice (user_id : Nat) (device_id : Str)
  | anonymous (device_id : Str)
deriving DecidableEq

/-- The structured key assigned to a row by the spec's layered rule. -/
def presenceSpecKey (r : OnlineDevicePresenceRow) : PresenceKey :=
  let normalized_agent := toLowerStr (pyStrip (r.user_agent.getD []))
  match r.user_id with
  | some uid =>
    if !normalized_agent.isEmpty then PresenceKey.byUserAgent uid normalized_agent
    else PresenceKey.byUserDevice uid r.device_id
  | none => PresenceKey.anonymous r.device_id

/-- The key string each structured key prints to; `presenceKey` factors through
it. -/
def keyOfSpecKey : PresenceKey → Str
  | PresenceKey.byUserAgent u a => "user:".data ++ natRepr u ++ ":agent:".data ++ a
  | PresenceKey.byUserDevice u d => "user:".data ++ natRepr u ++ ":device:".data ++ d
  | PresenceKey.anonymous d => "anon:".data ++ d

/-- Row of the `users` table (`models.User`); the password hash is opaque here
since `_hash_password` draws a random salt outside the model. -/
structure UserRow where
  id : Nat
  username : Str
  password_hash : Str
  is_admin : Bool
deriving DecidableEq

/-- The user table with its id sequence. -/
structure UsersDB where
  users : List UserRow
  next_user_id : Nat
deriving DecidableEq

/-- `crud.get_user_by_username`: lowered stored username compared against the
stripped, lowered input. -/
def get_user_by_username (d : UsersDB) (username : Str) : Option UserRow :=
  d.users.find? (fun u => toLowerStr u.username == toLowerStr (pyStrip username))

/-- `crud.register_user(db, username, password)`: `None` when the username is
taken; otherwise insert the user with the admin flag set exactly when no admin
row exists yet. `password_hash` stands for the `_hash_password(password)` value. -/
def register_user (d : UsersDB) (username password_hash : Str) :
    Option UserRow × UsersDB :=
  let normalized := toLowerStr (pyStrip username)
  match get_user_by_username d normalized with
  | some _ => (none, d)
  | none =>
    let has_admin := d.users.any (fun u => u.is_admin)
    let user : UserRow :=
      { id := d.next_user_id, username := normalized,
        password_hash := password_hash, is_admin := !has_admin }
    (some user, { users := d.users ++ [user], next_user_id := d.next_user_id + 1 })

/-- A sequence of registration attempts folded over the store; each event is a
(username, password-hash) pair, and failed attempts leave the store unchanged. -/
def register_sequence (d : UsersDB) (events : List (Str × Str)) : UsersDB :=
  events.foldl (fun acc ev => (register_user acc ev.1 ev.2).2) d

/-- Concrete user rows and stores used as witness evaluation points. -/
def aliceRow : UserRow :=
  { id := 1, username := "alice".data, password_hash := "ph".data, is_admin := true }

def usersDB0 : UsersDB := { users := [], next_user_id := 1 }

def usersDB1 : UsersDB := { users := [aliceRow], next_user_id := 2 }

theorem run_bindM {α β : Type} (x : M α) (f : α → M β) (s : Sess) :
    (x >>= f) s = match x s with
      | (Except.ok a, s2) => f a s2
      | (Except.error e, s2) => (Except.error e, s2) := rfl

theorem run_pureM {α : Type} (a : α) (s : Sess) : (pure a : M α) s = (Except.ok a, s) := rfl

theorem run_liftExcept {α : Type} (e : Except Str α) (s : Sess) : liftExcept e s = (e, s) := rfl

theorem run_getPending (s : Sess) : getPending s = (Except.ok s.pending, s) := rfl

theorem run_throwM {α : Type} (e : Str) (s : Sess) :
    (throwM e : M α) s = (Except.error e, s) := rfl

theorem run_modifyPending (f : DB → DB) (s : Sess) :
    modifyPending f s = (Except.ok (), { s with pending := f s.pending }) := rfl

theorem run_commitM (s : Sess) :
    commitM s = (Except.ok (), { committed := s.pending, pending := s.pending }) := rfl

theorem addRecipeRow_run (recipe : RecipeCreate) (s : Sess) :
    addRecipeRow recipe s = (Except.ok s.pending.next_id,
      { s with pending := insertRecipeRow recipe s.pending }) := rfl

theorem insertRecipeRow_ingredients (recipe : RecipeCreate) (d : DB) :
    (insertRecipeRow recipe d).ingredients = d.ingredients := rfl

theorem applyScalarUpdate_ingredients (recipe_id : Nat) (recipe : RecipeCreate)
    (d : DB) : (applyScalarUpdate recipe_id recipe d).ingredients = d.ingredients := rfl

theorem resolveTags_run (names : List Str) : ∀ s : Sess,
    ∃ ids s2, resolveTags names s = (Except.ok ids, s2) ∧
      s2.committed = s.committed := by
  induction names with
  | nil => intro s; exact ⟨[], s, rfl, rfl⟩
  | cons n rest ih =>
    intro s
    cases hq : queryTagByLoweredName s.pending n with
    | some t =>
      obtain ⟨ids, s2, h1, h2⟩ := ih s
      refine ⟨t.id :: ids, s2, ?_, h2⟩
      simp only [resolveTags, run_bindM, run_getPending, hq, h1, run_pureM]
    | none =>
      have hc : createTagRow n s = (Except.ok s.pending.next_id,
          { s with pending := { s.pending with
              tags := s.pending.tags ++ [{ id := s.pending.next_id, name := n }],
              next_id := s.pending.next_id + 1 } }) := rfl
      obtain ⟨ids, s2, h1, h2⟩ := ih { s with pending := { s.pending with
          tags := s.pending.tags ++ [{ id := s.pending.next_id, name := n }],
          next_id := s.pending.next_id + 1 } }
      refine ⟨s.pending.next_id :: ids, s2, ?_, h2⟩
      simp only [resolveTags, run_bindM, run_getPending, hq, hc, h1, run_pureM]

theorem resolveIngredients_congr {d1 d2 : DB} (h : d1.ingredients = d2.ingredients)
    (entries : List (Str × Option Str)) :
    resolveIngredients d1 entries = resolveIngredients d2 entries := by
  have hq : ∀ n, queryIngredientByLoweredName d1 n = queryIngredientByLoweredName d2 n := by
    intro n
    simp only [queryIngredientByLoweredName, h]
  simp only [resolveIngredients]
  congr 1
  funext acc e
  rw [hq]

theorem create_recipe_error_committed {db : DB} {recipe : RecipeCreate} {user_id : Nat}
    {e : Str} {s2 : Sess}
    (h : create_recipe recipe user_id { committed := db, pending := db } =
      (Except.error e, s2)) : s2.committed = db := by
  have hA := addRecipeRow_run recipe { committed := db, pending := db }
  cases hE : extract_ingredient_entries recipe.ingredients with
  | error e2 =>
    simp only [create_recipe, run_bindM, hA, run_liftExcept, hE] at h
    injection h with h1 h2
    rw [← h2]
  | ok entries =>
    cases hM : (resolveIngredients (insertRecipeRow recipe db) entries).2.isEmpty with
    | false =>
      simp only [create_recipe, run_bindM, hA, run_liftExcept, hE, run_getPending,
        hM, Bool.false_eq_true, if_false, run_throwM] at h
      injection h with h1 h2
      rw [← h2]
    | true =>
      cases hT : extract_unique_names recipe.tags "tags".data with
      | error e3 =>
        simp only [create_recipe, run_bindM, hA, run_liftExcept, hE, run_getPending,
          hM, if_true, hT] at h
        injection h with h1 h2
        rw [← h2]
      | ok tag_names =>
        obtain ⟨ids, s3, hR, _⟩ := resolveTags_run tag_names
          { committed := db, pending := insertRecipeRow recipe db }
        simp only [create_recipe, run_bindM, hA, run_liftExcept, hE, run_getPending,
          hM, if_true, hT, hR, setRecipeIngredientLinks, setRecipeTagLinks,
          apply_recipe_ingredient_quantities, addRecipeAuthor, run_modifyPending,
          run_commitM, run_pureM] at h
        exact absurd (congrArg Prod.fst h) (by simp)

theorem update_recipe_error_committed {db : DB} {recipe_id : Nat}
    {recipe : RecipeCreate} {e : Str} {s2 : Sess}
    (h : update_recipe recipe_id recipe { committed := db, pending := db } =
      (Except.error e, s2)) : s2.committed = db := by
  cases hQ : queryRecipeById db recipe_id with
  | none =>
    simp only [update_recipe, run_bindM, run_getPending, hQ, run_pureM] at h
    exact absurd (congrArg Prod.fst h) (by simp)
  | some r0 =>
    cases hE : extract_ingredient_entries recipe.ingredients with
    | error e2 =>
      simp only [update_recipe, run_bindM, run_getPending, hQ, updateRecipeScalarRow,
        run_modifyPending, run_liftExcept, hE] at h
      injection h with h1 h2
      rw [← h2]
    | ok entries =>
      cases hM : (resolveIngredients (applyScalarUpdate recipe_id recipe db)
          entries).2.isEmpty with
      | false =>
        simp only [update_recipe, run_bindM, run_getPending, hQ,
          updateRecipeScalarRow, run_modifyPending, run_liftExcept, hE, hM,
          Bool.false_eq_true, if_false, run_throwM] at h
        injection h with h1 h2
        rw [← h2]
      | true =>
        cases hT : extract_unique_names recipe.tags "tags".data with
        | error e3 =>
          simp only [update_recipe, run_bindM, run_getPending, hQ,
            updateRecipeScalarRow, run_modifyPending, run_liftExcept, hE, hM,
            if_true, hT] at h
          injection h with h1 h2
          rw [← h2]
        | ok tag_names =>
          obtain ⟨ids, s3, hR, _⟩ := resolveTags_run tag_names
            { committed := db, pending := applyScalarUpdate recipe_id recipe db }
          simp only [update_recipe, run_bindM, run_getPending, hQ,
            updateRecipeScalarRow, run_modifyPending, run_liftExcept, hE, hM,
            if_true, hT, hR, setRecipeIngredientLinks, setRecipeTagLinks,
            apply_recipe_ingredient_quantities, run_commitM, run_pureM] at h
          exact absurd (congrArg Prod.fst h) (by simp)

theorem create_recipe_missing_ingredients {db : DB} {recipe : RecipeCreate}
    {user_id : Nat} {entries : List (Str × Option Str)}
    (hE : extract_ingredient_entries recipe.ingredients = Except.ok entries)
    (hm : (resolveIngredients db entries).2 ≠ []) :
    create_recipe recipe user_id { committed := db, pending := db } =
      (Except.error (unknown_ingredients_message
        (sortedDedupStr (resolveIngredients db entries).2)),
       { committed := db, pending := insertRecipeRow recipe db }) := by
  have hA := addRecipeRow_run recipe { committed := db, pending := db }
  have hcong := resolveIngredients_congr (insertRecipeRow_ingredients recipe db) entries
  have hMdb : (resolveIngredients db entries).2.isEmpty = false :=
    List.isEmpty_eq_false.mpr hm
  simp only [create_recipe, run_bindM, hA, run_liftExcept, hE, run_getPending, hcong,
    hMdb, Bool.false_eq_true, if_false, run_throwM]

theorem update_recipe_missing_ingredients {db : DB} {recipe_id : Nat}
    {recipe : RecipeCreate} {r0 : RecipeRow} {entries : List (Str × Option Str)}
    (hQ : queryRecipeById db recipe_id = some r0)
    (hE : extract_ingredient_entries recipe.ingredients = Except.ok entries)
    (hm : (resolveIngredients db entries).2 ≠ []) :
    update_recipe recipe_id recipe { committed := db, pending := db } =
      (Except.error (unknown_ingredients_message
        (sortedDedupStr (resolveIngredients db entries).2)),
       { committed := db, pending := applyScalarUpdate recipe_id recipe db }) := by
  have hcong := resolveIngredients_congr
    (applyScalarUpdate_ingredients recipe_id recipe db) entries
  have hMdb : (resolveIngredients db entries).2.isEmpty = false :=
    List.isEmpty_eq_false.mpr hm
  simp only [update_recipe, run_bindM, run_getPending, hQ, updateRecipeScalarRow,
    run_modifyPending, run_liftExcept, hE, hcong, hMdb, Bool.false_eq_true, if_false,
    run_throwM]

theorem contains_iff_mem_str (l : List Str) (a : Str) : l.contains a = true ↔ a ∈ l := by
  simp [List.contains, List.elem_iff]

theorem contains_eq_false_str {l : List Str} {a : Str} (h : a ∉ l) : l.contains a = false := by
  cases hb : l.contains a with
  | false => rfl
  | true => exact absurd ((contains_iff_mem_str l a).mp hb) h

theorem firstSeenDedupAux_congr (l : List Str) : ∀ k1 k2 : List Str,
    (∀ x, x ∈ k1 ↔ x ∈ k2) → firstSeenDedupAux k1 l = firstSeenDedupAux k2 l := by
  induction l with
  | nil => intro k1 k2 h; rfl
  | cons n rest ih =>
    intro k1 k2 h
    by_cases hn : n ∈ k1
    · have h1 := (contains_iff_mem_str _ _).mpr hn
      have h2 := (contains_iff_mem_str _ _).mpr ((h n).mp hn)
      simp only [firstSeenDedupAux, h1, h2, if_true]
      exact ih k1 k2 h
    · have h1 := contains_eq_false_str hn
      have h2 := contains_eq_false_str (fun hx => hn ((h n).mpr hx))
      simp only [firstSeenDedupAux, h1, h2, Bool.false_eq_true, if_false]
      rw [ih (n :: k1) (n :: k2) (by intro x; simp [h x])]

theorem collectDupAux_eq (rest : List Str) : ∀ seen dups : List Str,
    collectDupAux rest seen dups =
      dups ++ firstSeenDedupAux dups (duplicateInstancesAux seen rest) := by
  induction rest with
  | nil =>
    intro seen dups
    simp [collectDupAux, duplicateInstancesAux, firstSeenDedupAux]
  | cons n rest ih =>
    intro seen dups
    by_cases hs : n ∈ seen
    · have hs1 := (contains_iff_mem_str _ _).mpr hs
      by_cases hd : n ∈ dups
      · have hd1 := (contains_iff_mem_str _ _).mpr hd
        simp only [collectDupAux, duplicateInstancesAux, hs1, hd1, Bool.not_true,
          Bool.and_false, Bool.false_eq_true, if_false, if_true, firstSeenDedupAux]
        exact ih (n :: seen) dups
      · have hd1 := contains_eq_false_str hd
        simp only [collectDupAux, duplicateInstancesAux, hs1, hd1, Bool.not_false,
          Bool.and_true, if_true, firstSeenDedupAux, Bool.false_eq_true, if_false]
        rw [ih (n :: seen) (dups ++ [n]),
          firstSeenDedupAux_congr _ (dups ++ [n]) (n :: dups)
            (by intro x; simp; tauto)]
        simp
    · have hs1 := contains_eq_false_str hs
      simp only [collectDupAux, duplicateInstancesAux, hs1, Bool.false_and,
        Bool.false_eq_true, if_false]
      exact ih (n :: seen) dups

theorem mem_firstSeenDedupAux (l : List Str) : ∀ (kept : List Str) (x : Str),
    x ∈ firstSeenDedupAux kept l ↔ x ∈ l ∧ x ∉ kept := by
  induction l with
  | nil => intro kept x; simp [firstSeenDedupAux]
  | cons n rest ih =>
    intro kept x
    by_cases hk : n ∈ kept
    · rw [show firstSeenDedupAux kept (n :: rest) = firstSeenDedupAux kept rest by
        simp only [firstSeenDedupAux, (contains_iff_mem_str _ _).mpr hk, if_true]]
      rw [ih kept x]
      simp only [List.mem_cons]
      constructor
      · intro hx; exact ⟨Or.inr hx.1, hx.2⟩
      · rintro ⟨hx | hx, hnk⟩
        · exact absurd (hx ▸ hk) hnk
        · exact ⟨hx, hnk⟩
    · rw [show firstSeenDedupAux kept (n :: rest) =
          n :: firstSeenDedupAux (n :: kept) rest by
        simp only [firstSeenDedupAux, contains_eq_false_str hk, Bool.false_eq_true,
          if_false]]
      simp only [List.mem_cons, ih (n :: kept) x]
      constructor
      · rintro (rfl | ⟨hx, hnk⟩)
        · exact ⟨Or.inl rfl, hk⟩
        · exact ⟨Or.inr hx, fun hc => hnk (Or.inr hc)⟩
      · rintro ⟨rfl | hx, hnk⟩
        · exact Or.inl rfl
        · by_cases hxn : x = n
          · exact Or.inl hxn
          · exact Or.inr ⟨hx, fun hc => hc.elim hxn hnk⟩

theorem nodup_firstSeenDedupAux (l : List Str) : ∀ kept : List Str,
    (firstSeenDedupAux kept l).Nodup := by
  induction l with
  | nil => intro kept; simp [firstSeenDedupAux]
  | cons n rest ih =>
    intro kept
    by_cases hk : n ∈ kept
    · rw [show firstSeenDedupAux kept (n :: rest) = firstSeenDedupAux kept rest by
        simp only [firstSeenDedupAux, (contains_iff_mem_str _ _).mpr hk, if_true]]
      exact ih kept
    · rw [show firstSeenDedupAux kept (n :: rest) =
          n :: firstSeenDedupAux (n :: kept) rest by
        simp only [firstSeenDedupAux, contains_eq_false_str hk, Bool.false_eq_true,
          if_false]]
      refine List.Nodup.cons ?_ (ih (n :: kept))
      intro hc
      exact ((mem_firstSeenDedupAux rest (n :: kept) n).mp hc).2 (List.mem_cons_self n _)

theorem mem_duplicateInstancesAux (l : List Str) : ∀ (seen : List Str) (x : Str),
    x ∈ duplicateInstancesAux seen l ↔ (x ∈ seen ∧ x ∈ l) ∨ 2 ≤ List.count x l := by
  induction l with
  | nil => intro seen x; simp [duplicateInstancesAux]
  | cons n rest ih =>
    intro seen x
    have hcnt : List.count x (n :: rest) =
        List.count x rest + if n == x then 1 else 0 := List.count_cons x n rest
    by_cases hxn : x = n
    · subst hxn
      rw [show (if x == x then 1 else 0) = 1 by simp] at hcnt
      by_cases hs : x ∈ seen
      · rw [show duplicateInstancesAux seen (x :: rest) =
            x :: duplicateInstancesAux (x :: seen) rest by
          simp only [duplicateInstancesAux, (contains_iff_mem_str _ _).mpr hs, if_true]]
        simp [hs, hcnt]
      · rw [show duplicateInstancesAux seen (x :: rest) =
            duplicateInstancesAux (x :: seen) rest by
          simp only [duplicateInstancesAux, contains_eq_false_str hs, Bool.false_eq_true,
            if_false]]
        rw [ih (x :: seen) x]
        have hm : x ∈ rest ↔ 0 < List.count x rest := List.count_pos_iff.symm
        constructor
        · rintro (⟨_, hx⟩ | hx)
          · right
            rw [hcnt]
            have := List.count_pos_iff.mpr hx
            omega
          · right; rw [hcnt]; omega
        · rintro (⟨hx, _⟩ | hx)
          · exact absurd hx hs
          · rw [hcnt] at hx
            by_cases hxr : x ∈ rest
            · exact Or.inl ⟨List.mem_cons_self x seen, hxr⟩
            · have : List.count x rest = 0 := by
                rcases Nat.eq_zero_or_pos (List.count x rest) with h0 | h0
                · exact h0
                · exact absurd (List.count_pos_iff.mp h0) hxr
              omega
    · have hbeq : (n == x) = false := by
        cases hb : n == x with
        | false => rfl
        | true => exact absurd (eq_of_beq hb).symm hxn
      simp only [hbeq, Bool.false_eq_true, if_false, Nat.add_zero] at hcnt
      have hmc : x ∈ n :: rest ↔ x ∈ rest := by simp [hxn]
      have hms : x ∈ n :: seen ↔ x ∈ seen := by simp [hxn]
      by_cases hs : n ∈ seen
      · rw [show duplicateInstancesAux seen (n :: rest) =
            n :: duplicateInstancesAux (n :: seen) rest by
          simp only [duplicateInstancesAux, (contains_iff_mem_str _ _).mpr hs, if_true]]
        rw [List.mem_cons, ih (n :: seen) x]
        simp only [hms, hmc, hcnt]
        constructor
        · rintro (h | h)
          · exact absurd h hxn
          · simpa using h
        · intro h; right; simpa using h
      · rw [show duplicateInstancesAux seen (n :: rest) =
            duplicateInstancesAux (n :: seen) rest by
          simp only [duplicateInstancesAux, contains_eq_false_str hs, Bool.false_eq_true,
            if_false]]
        rw [ih (n :: seen) x]
        simp only [hms, hmc, hcnt, Nat.add_zero]

theorem mem_collect_duplicates (names : List Str) (x : Str) :
    x ∈ collect_duplicates names ↔ 2 ≤ List.count x names := by
  rw [collect_duplicates, collectDupAux_eq, List.nil_append,
    mem_firstSeenDedupAux, mem_duplicateInstancesAux]
  simp

theorem nodup_collect_duplicates (names : List Str) : (collect_duplicates names).Nodup := by
  rw [collect_duplicates, collectDupAux_eq, List.nil_append]
  exact nodup_firstSeenDedupAux _ _

theorem collect_duplicates_eq_firstSeen (names : List Str) :
    collect_duplicates names = firstSeenDedup (duplicateInstances names) := by
  rw [collect_duplicates, collectDupAux_eq, List.nil_append]
  rfl

theorem except_bind_ok {α β : Type} (a : α) (f : α → Except Str β) :
    (Except.ok a >>= f) = f a := rfl

theorem map_fst_pair (q : Option Str) (l : List Str) :
    (l.map (fun n => (n, q))).map Prod.fst = l := by
  induction l with
  | nil => rfl
  | cons a t ih => simp [ih]

theorem mapM_entries_ok {items : List IngredientCreate}
    (hq : ∀ it ∈ items, ∃ q, normalize_quantity it.quantity = Except.ok q) :
    ∃ entryLists : List (List (Str × Option Str)),
      (items.mapM (fun item => do
          let quantity ← normalize_quantity item.quantity
          pure ((normalizedNames item.name).map (fun n => (n, quantity))))
        : Except Str (List (List (Str × Option Str)))) = Except.ok entryLists ∧
      entryLists.flatten.map Prod.fst = ingredientFlattenedNames items := by
  induction items with
  | nil => exact ⟨[], rfl, rfl⟩
  | cons it rest ih =>
    obtain ⟨q, hqit⟩ := hq it (List.mem_cons_self it rest)
    obtain ⟨es, hes, hnames⟩ := ih (fun x hx => hq x (List.mem_cons_of_mem it hx))
    refine ⟨(normalizedNames it.name).map (fun n => (n, q)) :: es, ?_, ?_⟩
    · simp only [List.mapM_cons, hqit, hes, except_bind_ok]
      rfl
    · rw [List.flatten_cons, List.map_append, map_fst_pair, hnames]
      rw [show ingredientFlattenedNames (it :: rest) =
          normalizedNames it.name ++ ingredientFlattenedNames rest by
        simp [ingredientFlattenedNames]]

theorem extract_unique_names_dup_error {items : List TagCreate} {label : Str}
    (hd : ∃ x, 2 ≤ List.count x (tagFlattenedNames items)) :
    extract_unique_names items label =
      Except.error (duplicate_message label (collect_duplicates (tagFlattenedNames items))) := by
  obtain ⟨x, hx⟩ := hd
  have hne : (collect_duplicates (tagFlattenedNames items)).isEmpty = false := by
    rw [List.isEmpty_eq_false]
    exact List.ne_nil_of_mem ((mem_collect_duplicates _ x).mpr hx)
  simp only [extract_unique_names, hne, Bool.false_eq_true, if_false]

theorem extract_ingredient_entries_dup_error {items : List IngredientCreate}
    (hq : ∀ it ∈ items, ∃ q, normalize_quantity it.quantity = Except.ok q)
    (hd : ∃ x, 2 ≤ List.count x (ingredientFlattenedNames items)) :
    extract_ingredient_entries items =
      Except.error (duplicate_message "ingredients".data
        (collect_duplicates (ingredientFlattenedNames items))) := by
  obtain ⟨es, hes, hnames⟩ := mapM_entries_ok hq
  obtain ⟨x, hx⟩ := hd
  have hne : (collect_duplicates (ingredientFlattenedNames items)).isEmpty = false := by
    rw [List.isEmpty_eq_false]
    exact List.ne_nil_of_mem ((mem_collect_duplicates _ x).mpr hx)
  simp only [extract_ingredient_entries, hes, except_bind_ok, hnames, hne,
    Bool.false_eq_true, if_false]

/-- Counterexample for C6 as stated: the ingredient name-list input
`[{name: "egg, egg", quantity: "2 cups"}]` has a flattened, normalized name
sequence containing `egg` twice, and the whole operation does fail — but with the
quantity `ValueError`, whose message does not name the duplicated token `egg` at
all (the quantity of each entry is normalized before the duplicate check runs). -/
theorem c6_counterexample :
    2 ≤ List.count "egg".data
      (ingredientFlattenedNames [⟨"egg, egg".data, some "2 cups".data⟩]) ∧
    extract_ingredient_entries [⟨"egg, egg".data, some "2 cups".data⟩] =
      Except.error quantity_error_message ∧
    containsSeq "egg".data quantity_error_message = false := by
  refine ⟨by decide, ?_, by decide⟩
  rfl

/-- C6 (amended): for every tag name-list input whose flattened, normalized name
sequence contains some name more than once, and every ingredient name-list input
likewise — provided each supplied quantity string itself normalizes (a quantity
failure is raised first) — the operation fails with the duplicate `ValueError`
naming each duplicated token exactly once, in the order the duplicates are first
seen (the first duplicate instance of each name); detection is case-insensitive
since names are lower-cased first, so `"egg, Egg, milk"` fails naming `egg`
exactly once. -/
theorem c6_duplicate_names (tagItems : List TagCreate) (label : Str)
    (ingItems : List IngredientCreate)
    (hqs : ∀ it ∈ ingItems, ∃ q, normalize_quantity it.quantity = Except.ok q)
    (hdt : ∃ x, 2 ≤ List.count x (tagFlattenedNames tagItems))
    (hdi : ∃ x, 2 ≤ List.count x (ingredientFlattenedNames ingItems)) :
    (extract_unique_names tagItems label = Except.error
        (duplicate_message label (collect_duplicates (tagFlattenedNames tagItems))) ∧
      (collect_duplicates (tagFlattenedNames tagItems)).Nodup ∧
      (∀ x, x ∈ collect_duplicates (tagFlattenedNames tagItems) ↔
        2 ≤ List.count x (tagFlattenedNames tagItems)) ∧
      collect_duplicates (tagFlattenedNames tagItems) =
        firstSeenDedup (duplicateInstances (tagFlattenedNames tagItems))) ∧
    (extract_ingredient_entries ingItems = Except.error
        (duplicate_message "ingredients".data
          (collect_duplicates (ingredientFlattenedNames ingItems))) ∧
      (collect_duplicates (ingredientFlattenedNames ingItems)).Nodup ∧
      (∀ x, x ∈ collect_duplicates (ingredientFlattenedNames ingItems) ↔
        2 ≤ List.count x (ingredientFlattenedNames ingItems)) ∧
      collect_duplicates (ingredientFlattenedNames ingItems) =
        firstSeenDedup (duplicateInstances (ingredientFlattenedNames ingItems))) ∧
    extract_ingredient_entries [⟨"egg, Egg, milk".data, none⟩] =
      Except.error (duplicate_message "ingredients".data ["egg".data]) := by
  refine ⟨⟨extract_unique_names_dup_error hdt, nodup_collect_duplicates _,
      fun x => mem_collect_duplicates _ x, collect_duplicates_eq_firstSeen _⟩,
    ⟨extract_ingredient_entries_dup_error hqs hdi, nodup_collect_duplicates _,
      fun x => mem_collect_duplicates _ x, collect_duplicates_eq_firstSeen _⟩, ?_⟩
  rfl

/-- Witness for the amended C6 at the inputs `tags = ["a, b, b, a"]` and
`ingredients = ["egg, Egg, milk"]` (no quantity). -/
theorem c6_duplicate_names_witness :
    extract_unique_names [⟨"a, b, b, a".data⟩] "tags".data =
      Except.error "Duplicate tags: b, a".data ∧
    extract_ingredient_entries [⟨"egg, Egg, milk".data, none⟩] =
      Except.error "Duplicate ingredients: egg".data := by
  have h := c6_duplicate_names [⟨"a, b, b, a".data⟩] "tags".data
    [⟨"egg, Egg, milk".data, none⟩]
    (by
      intro it hit
      have hit2 : it = (⟨"egg, Egg, milk".data, none⟩ : IngredientCreate) := by
        simpa using hit
      rw [hit2]
      exact ⟨none, rfl⟩)
    ⟨"b".data, by decide⟩ ⟨"egg".data, by decide⟩
  constructor
  · have h1 := h.1.1
    rw [show duplicate_message "tags".data
        (collect_duplicates (tagFlattenedNames [⟨"a, b, b, a".data⟩])) =
        "Duplicate tags: b, a".data by decide] at h1
    exact h1
  · have h2 := h.2.1.1
    rw [show duplicate_message "ingredients".data
        (collect_duplicates (ingredientFlattenedNames [⟨"egg, Egg, milk".data, none⟩])) =
        "Duplicate ingredients: egg".data by decide] at h2
    exact h2

/-- Witness for the amended C8 at the spec's own failing example `"2 cups"`. -/
theorem c8_error_names_example_units_witness :
    (∃ e, normalize_quantity (some "2 cups".data) = Except.error e) ∧
    normalize_quantity (some "2 cups".data) = Except.error quantity_error_message := by
  have h : normalize_quantity (some "2 cups".data) = Except.error quantity_error_message := rfl
  exact ⟨⟨quantity_error_message, h⟩,
    (c8_error_names_example_units ⟨quantity_error_message, h⟩).1⟩

theorem sortedDedupStr_mem (l : List Str) (x : Str) : x ∈ sortedDedupStr l ↔ x ∈ l := by
  rw [sortedDedupStr, List.Perm.mem_iff (List.perm_insertionSort _ _),
    show firstSeenDedup l = firstSeenDedupAux [] l from rfl,
    mem_firstSeenDedupAux]
  simp

theorem sortedDedupStr_nodup (l : List Str) : (sortedDedupStr l).Nodup := by
  rw [sortedDedupStr]
  exact ((List.perm_insertionSort _ _).nodup_iff).mpr (nodup_firstSeenDedupAux l [])

theorem sortedDedupStr_sorted (l : List Str) :
    List.Sorted (fun a b : Str => a ≤ b) (sortedDedupStr l) :=
  List.sorted_insertionSort _ _

/-- C2: a recipe write (create or update) that raises — ingredient/tag extraction,
quantity normalization, or ingredient resolution failing — commits nothing: the
persisted store after the session closes is exactly the store before the write
(scalar fields, ingredient and tag associations, per-association quantities, and
every other table included). -/
theorem c2_recipe_write_atomicity (db : DB) (recipe : RecipeCreate)
    (user_id recipe_id : Nat) :
    ((runSession (create_recipe recipe user_id) db).1.isOk = false →
      (runSession (create_recipe recipe user_id) db).2 = db) ∧
    ((runSession (update_recipe recipe_id recipe) db).1.isOk = false →
      (runSession (update_recipe recipe_id recipe) db).2 = db) := by
  constructor
  · intro h
    cases hres : create_recipe recipe user_id { committed := db, pending := db } with
    | mk r s2 =>
      cases r with
      | ok a =>
        rw [show (runSession (create_recipe recipe user_id) db).1 = Except.ok a by
          simp [runSession, hres]] at h
        simp [Except.isOk, Except.toBool] at h
      | error e =>
        have hc := create_recipe_error_committed hres
        simp [runSession, hres, hc]
  · intro h
    cases hres : update_recipe recipe_id recipe { committed := db, pending := db } with
    | mk r s2 =>
      cases r with
      | ok a =>
        rw [show (runSession (update_recipe recipe_id recipe) db).1 = Except.ok a by
          simp [runSession, hres]] at h
        simp [Except.isOk, Except.toBool] at h
      | error e =>
        have hc := update_recipe_error_committed hres
        simp [runSession, hres, hc]

/-- Witness for C2: creating and updating against `sampleDB` with a recipe
referencing the uncataloged ingredient `flour` fails and leaves the store as it
was. -/
theorem c2_recipe_write_atomicity_witness :
    (runSession (create_recipe missingIngredientRecipe 1) sampleDB).1.isOk = false ∧
    (runSession (create_recipe missingIngredientRecipe 1) sampleDB).2 = sampleDB ∧
    (runSession (update_recipe 3 missingIngredientRecipe) sampleDB).1.isOk = false ∧
    (runSession (update_recipe 3 missingIngredientRecipe) sampleDB).2 = sampleDB := by
  have h := c2_recipe_write_atomicity sampleDB missingIngredientRecipe 1 3
  have h1 : (runSession (create_recipe missingIngredientRecipe 1) sampleDB).1.isOk =
      false := by decide
  have h2 : (runSession (update_recipe 3 missingIngredientRecipe) sampleDB).1.isOk =
      false := by decide
  exact ⟨h1, h.1 h1, h2, h.2 h2⟩

/-- Counterexample for C3 as stated: `dupAndMissingRecipe` references the
normalized name `flour`, which has no case-insensitive match in `sampleDB`, yet
the write fails with the duplicate-name `ValueError` for `butter` — raised by
entry extraction before resolution — whose message does not list `flour` at all. -/
theorem c3_counterexample :
    "flour".data ∈ ingredientFlattenedNames dupAndMissingRecipe.ingredients ∧
    queryIngredientByLoweredName sampleDB "flour".data = none ∧
    (runSession (create_recipe dupAndMissingRecipe 1) sampleDB).1 =
      Except.error "Duplicate ingredients: butter".data ∧
    containsSeq "flour".data "Duplicate ingredients: butter".data = false := by
  refine ⟨by decide, by decide, ?_, by decide⟩
  rfl

/-- C3 (amended): a recipe write (create, or update of an existing recipe) whose
ingredient entries extract successfully (no duplicate-name or quantity error,
which are detected first) but reference at least one normalized name with no
case-insensitive catalog match fails as a whole with the `ValueError` listing
every missing name exactly once, sorted lexicographically; the store is unchanged
and in particular no Ingredient row is created. -/
theorem c3_missing_ingredients (db : DB) (recipe : RecipeCreate)
    (user_id recipe_id : Nat) (entries : List (Str × Option Str))
    (hE : extract_ingredient_entries recipe.ingredients = Except.ok entries)
    (hm : (resolveIngredients db entries).2 ≠ []) :
    ((runSession (create_recipe recipe user_id) db).1 =
      Except.error (unknown_ingredients_message
        (sortedDedupStr (resolveIngredients db entries).2)) ∧
     (runSession (create_recipe recipe user_id) db).2 = db ∧
     (runSession (create_recipe recipe user_id) db).2.ingredients = db.ingredients) ∧
    (∀ r0, queryRecipeById db recipe_id = some r0 →
      (runSession (update_recipe recipe_id recipe) db).1 =
        Except.error (unknown_ingredients_message
          (sortedDedupStr (resolveIngredients db entries).2)) ∧
      (runSession (update_recipe recipe_id recipe) db).2 = db) ∧
    (∀ n, n ∈ sortedDedupStr (resolveIngredients db entries).2 ↔
      n ∈ (resolveIngredients db entries).2) ∧
    (sortedDedupStr (resolveIngredients db entries).2).Nodup ∧
    List.Sorted (fun a b : Str => a ≤ b)
      (sortedDedupStr (resolveIngredients db entries).2) := by
  have hc := @create_recipe_missing_ingredients db recipe user_id entries hE hm
  refine ⟨?_, ?_, fun n => sortedDedupStr_mem _ n, sortedDedupStr_nodup _,
    sortedDedupStr_sorted _⟩
  · exact ⟨by simp [runSession, hc], by simp [runSession, hc],
      by simp [runSession, hc]⟩
  · intro r0 hQ
    have hu := @update_recipe_missing_ingredients db recipe_id recipe r0 entries hQ hE hm
    exact ⟨by simp [runSession, hu], by simp [runSession, hu]⟩

theorem favPred_eq {recipe_id user_id : Nat} {p : Nat × Nat}
    (h : (p.1 == recipe_id && p.2 == user_id) = true) : p = (recipe_id, user_id) := by
  obtain ⟨h1, h2⟩ := Bool.and_eq_true _ _ |>.mp h
  exact Prod.ext (eq_of_beq h1) (eq_of_beq h2)

/-- C7: favorite operations are idempotent. For a store satisfying the composite
primary-key invariant (at most one row per (recipe, user) pair) and an existing
recipe: adding the same favorite twice leaves the second call a no-op and exactly
one favorite row for the pair; removing a favorite that does not exist changes no
state and still returns the success value. -/
theorem c7_favorite_idempotent (d : DB) (recipe_id user_id : Nat)
    (hr : (queryRecipeById d recipe_id).isSome = true)
    (hc : List.count (recipe_id, user_id) d.recipe_favorites ≤ 1) :
    (add_recipe_favorite (add_recipe_favorite d recipe_id user_id).2 recipe_id
        user_id).2 = (add_recipe_favorite d recipe_id user_id).2 ∧
    (add_recipe_favorite (add_recipe_favorite d recipe_id user_id).2 recipe_id
        user_id).1 = some recipe_id ∧
    List.count (recipe_id, user_id)
      (add_recipe_favorite d recipe_id user_id).2.recipe_favorites = 1 ∧
    ((∀ p ∈ d.recipe_favorites, p ≠ (recipe_id, user_id)) →
      remove_recipe_favorite d recipe_id user_id = (recipe_id, d)) := by
  obtain ⟨r0, hq⟩ : ∃ r0, queryRecipeById d recipe_id = some r0 := by
    cases hqq : queryRecipeById d recipe_id with
    | none => rw [hqq] at hr; exact absurd hr (by simp)
    | some r0 => exact ⟨r0, rfl⟩
  have hrm : (∀ p ∈ d.recipe_favorites, p ≠ (recipe_id, user_id)) →
      remove_recipe_favorite d recipe_id user_id = (recipe_id, d) := by
    intro hnone
    have hf : d.recipe_favorites.find?
        (fun f => f.1 == recipe_id && f.2 == user_id) = none := by
      rw [List.find?_eq_none]
      intro p hp hpred
      exact absurd (favPred_eq hpred) (hnone p hp)
    simp only [remove_recipe_favorite, hf]
  cases hf : d.recipe_favorites.find? (fun f => f.1 == recipe_id && f.2 == user_id) with
  | some fav =>
    have hfp := List.find?_some hf
    have hfe : fav = (recipe_id, user_id) := favPred_eq (by simpa using hfp)
    have h1 : add_recipe_favorite d recipe_id user_id = (some recipe_id, d) := by
      simp only [add_recipe_favorite, hq, hf]
    have hcnt : List.count (recipe_id, user_id) d.recipe_favorites = 1 := by
      have hmem : (recipe_id, user_id) ∈ d.recipe_favorites :=
        hfe ▸ List.mem_of_find?_eq_some hf
      have := List.count_pos_iff.mpr hmem
      omega
    rw [h1]
    exact ⟨by rw [h1], by rw [h1], hcnt, hrm⟩
  | none =>
    have h1 : add_recipe_favorite d recipe_id user_id = (some recipe_id,
        { d with recipe_favorites := d.recipe_favorites ++ [(recipe_id, user_id)] }) := by
      simp only [add_recipe_favorite, hq, hf]
    have hq2 : queryRecipeById
        { d with recipe_favorites := d.recipe_favorites ++ [(recipe_id, user_id)] }
        recipe_id = some r0 := hq
    have hf2 : (d.recipe_favorites ++ [(recipe_id, user_id)]).find?
        (fun f => f.1 == recipe_id && f.2 == user_id) = some (recipe_id, user_id) := by
      rw [List.find?_append, hf]
      simp
    have h2 : add_recipe_favorite
        { d with recipe_favorites := d.recipe_favorites ++ [(recipe_id, user_id)] }
        recipe_id user_id = (some recipe_id,
        { d with recipe_favorites := d.recipe_favorites ++ [(recipe_id, user_id)] }) := by
      simp only [add_recipe_favorite, hq2, hf2]
    have hcnt0 : List.count (recipe_id, user_id) d.recipe_favorites = 0 :=
      List.count_eq_zero.mpr (fun hmem => by
        have := List.find?_eq_none.mp hf _ hmem
        simp at this)
    have hcnt : List.count (recipe_id, user_id)
        (d.recipe_favorites ++ [(recipe_id, user_id)]) = 1 := by
      rw [List.count_append, hcnt0, List.count_singleton]
      simp
    rw [h1]
    exact ⟨by rw [h2], by rw [h2], hcnt, hrm⟩

/-- Witness for C7 at `sampleDB` (recipe 3 exists, user 7 has no favorite). -/
theorem c7_favorite_idempotent_witness :
    (add_recipe_favorite (add_recipe_favorite sampleDB 3 7).2 3 7).2 =
      (add_recipe_favorite sampleDB 3 7).2 ∧
    List.count (3, 7) (add_recipe_favorite sampleDB 3 7).2.recipe_favorites = 1 ∧
    remove_recipe_favorite sampleDB 3 7 = (3, sampleDB) := by
  have h := c7_favorite_idempotent sampleDB 3 7 (by decide) (by decide)
  exact ⟨h.1, h.2.2.1, h.2.2.2 (by decide)⟩

/-- C10: removing a favorite never signals not-found — for every recipe id,
including ids with no Recipe row, `remove_recipe_favorite` returns the success
value carrying that id; `add_recipe_favorite` returns `None` when no Recipe row
with the id exists, creating nothing. -/
theorem c10_remove_favorite_never_not_found (d : DB) (recipe_id user_id : Nat) :
    (remove_recipe_favorite d recipe_id user_id).1 = recipe_id ∧
    (queryRecipeById d recipe_id = none →
      add_recipe_favorite d recipe_id user_id = (none, d)) := by
  constructor
  · cases hf : d.recipe_favorites.find?
        (fun f => f.1 == recipe_id && f.2 == user_id) with
    | none => simp only [remove_recipe_favorite, hf]
    | some fav => simp only [remove_recipe_favorite, hf]
  · intro h
    simp only [add_recipe_favorite, h]

/-- Witness for C10 at `sampleDB` and the nonexistent recipe id 99. -/
theorem c10_remove_favorite_never_not_found_witness :
    (remove_recipe_favorite sampleDB 99 7).1 = 99 ∧
    add_recipe_favorite sampleDB 99 7 = (none, sampleDB) := by
  have h := c10_remove_favorite_never_not_found sampleDB 99 7
  exact ⟨h.1, h.2 (by decide)⟩

theorem digitChar_isDigit : ∀ d : Nat, d < 10 → (Nat.digitChar d).isDigit = true := by
  decide

theorem digitChar_inj : ∀ d1 : Nat, d1 < 10 → ∀ d2 : Nat, d2 < 10 →
    Nat.digitChar d1 = Nat.digitChar d2 → d1 = d2 := by decide

theorem digitChar_eq_zero : ∀ d : Nat, d < 10 → Nat.digitChar d = '0' → d = 0 := by
  decide

theorem natRepr_all_digits (n : Nat) : ∀ c ∈ natRepr n, c.isDigit = true := by
  intro c hc
  rw [natRepr] at hc
  by_cases h0 : n = 0
  · rw [if_pos h0] at hc
    have : c = '0' := by simpa using hc
    rw [this]; decide
  · rw [if_neg h0] at hc
    obtain ⟨d, hd, hdc⟩ := List.mem_map.mp hc
    rw [← hdc]
    exact digitChar_isDigit d (Nat.digits_lt_base (by norm_num) (List.mem_reverse.mp hd))

theorem map_digitChar_inj : ∀ l1 l2 : List Nat, (∀ d ∈ l1, d < 10) →
    (∀ d ∈ l2, d < 10) → l1.map Nat.digitChar = l2.map Nat.digitChar → l1 = l2 := by
  intro l1
  induction l1 with
  | nil =>
    intro l2 _ _ h
    cases l2 with
    | nil => rfl
    | cons b bs => simp at h
  | cons a as ih =>
    intro l2 h1 h2 h
    cases l2 with
    | nil => simp at h
    | cons b bs =>
      simp only [List.map_cons, List.cons.injEq] at h
      have ha := digitChar_inj a (h1 a (by simp)) b (h2 b (by simp)) h.1
      rw [ha, ih bs (fun d hd => h1 d (by simp [hd]))
        (fun d hd => h2 d (by simp [hd])) h.2]

theorem natRepr_ne_zero_str {n : Nat} (hn : n ≠ 0) (h : natRepr n = ['0']) :
    False := by
  rw [natRepr, if_neg hn] at h
  cases hrev : (Nat.digits 10 n).reverse with
  | nil => rw [hrev] at h; simp at h
  | cons d ds =>
    rw [hrev] at h
    simp only [List.map_cons, List.cons.injEq] at h
    obtain ⟨hd0, hds⟩ := h
    have hds2 : ds = [] := by simpa using hds
    have hdmem : d ∈ Nat.digits 10 n := List.mem_reverse.mp (by rw [hrev]; simp)
    have hd10 : d < 10 := Nat.digits_lt_base (by norm_num) hdmem
    have hdz : d = 0 := digitChar_eq_zero d hd10 hd0
    have hdig : Nat.digits 10 n = [0] := by
      have hr2 : (Nat.digits 10 n).reverse = [0] := by rw [hrev, hds2, hdz]
      calc Nat.digits 10 n = (Nat.digits 10 n).reverse.reverse := by
            rw [List.reverse_reverse]
      _ = [0] := by rw [hr2]; rfl
    have hnz : n = 0 := by
      have ho := Nat.ofDigits_digits 10 n
      rw [hdig] at ho
      simpa [Nat.ofDigits] using ho.symm
    exact hn hnz

theorem natRepr_inj {m n : Nat} (h : natRepr m = natRepr n) : m = n := by
  by_cases hm : m = 0 <;> by_cases hn : n = 0
  · rw [hm, hn]
  · exact absurd (by rw [← h, natRepr, if_pos hm] : natRepr n = ['0'])
      (fun hc => natRepr_ne_zero_str hn hc)
  · exact absurd (by rw [h, natRepr, if_pos hn] : natRepr m = ['0'])
      (fun hc => natRepr_ne_zero_str hm hc)
  · rw [natRepr, if_neg hm, natRepr, if_neg hn] at h
    have hdigs := map_digitChar_inj _ _
      (fun d hd => Nat.digits_lt_base (by norm_num) (List.mem_reverse.mp hd))
      (fun d hd => Nat.digits_lt_base (by norm_num) (List.mem_reverse.mp hd)) h
    have := List.reverse_inj.mp hdigs
    exact Nat.digits_inj_iff.mp this

theorem digit_colon_split : ∀ d1 d2 t1 t2 : Str, (∀ c ∈ d1, c.isDigit = true) →
    (∀ c ∈ d2, c.isDigit = true) →
    d1 ++ ':' :: t1 = d2 ++ ':' :: t2 → d1 = d2 ∧ t1 = t2 := by
  intro d1
  induction d1 with
  | nil =>
    intro d2 t1 t2 _ h2 he
    cases d2 with
    | nil => simpa using he
    | cons c cs =>
      exfalso
      simp only [List.nil_append, List.cons_append, List.cons.injEq] at he
      have hc := h2 c (by simp)
      rw [← he.1] at hc
      exact absurd hc (by decide)
  | cons a as ih =>
    intro d2 t1 t2 h1 h2 he
    cases d2 with
    | nil =>
      exfalso
      simp only [List.cons_append, List.nil_append, List.cons.injEq] at he
      have ha := h1 a (by simp)
      rw [he.1] at ha
      exact absurd ha (by decide)
    | cons b bs =>
      simp only [List.cons_append, List.cons.injEq] at he
      obtain ⟨hab, hrest⟩ := he
      obtain ⟨h1r, h2r⟩ := ih bs t1 t2 (fun c hc => h1 c (by simp [hc]))
        (fun c hc => h2 c (by simp [hc])) hrest
      exact ⟨by rw [hab, h1r], h2r⟩

theorem user_key_eq_elim {u1 u2 : Nat} {tail1 tail2 : Str}
    (h : "user:".data ++ natRepr u1 ++ ':' :: tail1 =
      "user:".data ++ natRepr u2 ++ ':' :: tail2) : u1 = u2 ∧ tail1 = tail2 := by
  have h2 : natRepr u1 ++ ':' :: tail1 = natRepr u2 ++ ':' :: tail2 := by
    simpa [List.append_assoc] using h
  obtain ⟨hr, ht⟩ := digit_colon_split _ _ _ _ (natRepr_all_digits u1)
    (natRepr_all_digits u2) h2
  exact ⟨natRepr_inj hr, ht⟩

theorem agent_marker : (':' : Char) :: "agent:".data = ":agent:".data := by decide

theorem device_marker : (':' : Char) :: "device:".data = ":device:".data := by decide

theorem keyOfSpecKey_inj : ∀ k1 k2 : PresenceKey,
    keyOfSpecKey k1 = keyOfSpecKey k2 → k1 = k2 := by
  intro k1 k2 h
  cases k1 with
  | byUserAgent u1 a1 =>
    cases k2 with
    | byUserAgent u2 a2 =>
      simp only [keyOfSpecKey, ← agent_marker] at h
      obtain ⟨hu, ht⟩ := user_key_eq_elim (by simpa [List.append_assoc] using h)
      have ha : a1 = a2 := by simpa using ht
      rw [hu, ha]
    | byUserDevice u2 d2 =>
      exfalso
      simp only [keyOfSpecKey, ← agent_marker, ← device_marker] at h
      obtain ⟨_, ht⟩ := user_key_eq_elim (by simpa [List.append_assoc] using h)
      have hh := congrArg (fun l : Str => l.headD ' ') ht
      simp at hh
    | anonymous d2 =>
      exfalso
      have hh := congrArg (fun l : Str => l.headD ' ') h
      simp only [keyOfSpecKey] at hh
      simp at hh
  | byUserDevice u1 d1 =>
    cases k2 with
    | byUserAgent u2 a2 =>
      exfalso
      simp only [keyOfSpecKey, ← agent_marker, ← device_marker] at h
      obtain ⟨_, ht⟩ := user_key_eq_elim (by simpa [List.append_assoc] using h)
      have hh := congrArg (fun l : Str => l.headD ' ') ht
      simp at hh
    | byUserDevice u2 d2 =>
      simp only [keyOfSpecKey, ← device_marker] at h
      obtain ⟨hu, ht⟩ := user_key_eq_elim (by simpa [List.append_assoc] using h)
      have hd : d1 = d2 := by simpa using ht
      rw [hu, hd]
    | anonymous d2 =>
      exfalso
      have hh := congrArg (fun l : Str => l.headD ' ') h
      simp only [keyOfSpecKey] at hh
      simp at hh
  | anonymous d1 =>
    cases k2 with
    | byUserAgent u2 a2 =>
      exfalso
      have hh := congrArg (fun l : Str => l.headD ' ') h
      simp only [keyOfSpecKey] at hh
      simp at hh
    | byUserDevice u2 d2 =>
      exfalso
      have hh := congrArg (fun l : Str => l.headD ' ') h
      simp only [keyOfSpecKey] at hh
      simp at hh
    | anonymous d2 =>
      simp only [keyOfSpecKey] at h
      rw [List.append_cancel_left h]

theorem presenceKey_eq_keyOfSpec (r : OnlineDevicePresenceRow) :
    presenceKey r = keyOfSpecKey (presenceSpecKey r) := by
  cases hu : r.user_id with
  | none => simp [presenceKey, presenceSpecKey, keyOfSpecKey, hu]
  | some uid =>
    by_cases ha : (toLowerStr (pyStrip (r.user_agent.getD []))).isEmpty = true
    · simp [presenceKey, presenceSpecKey, keyOfSpecKey, hu, ha]
    · simp [presenceKey, presenceSpecKey, keyOfSpecKey, hu, ha]

theorem presenceKey_eq_iff (r1 r2 : OnlineDevicePresenceRow) :
    presenceKey r1 = presenceKey r2 ↔ presenceSpecKey r1 = presenceSpecKey r2 := by
  rw [presenceKey_eq_keyOfSpec, presenceKey_eq_keyOfSpec]
  exact ⟨fun h => keyOfSpecKey_inj _ _ h, fun h => by rw [h]⟩

theorem dedup_length_congr {γ α β : Type} [DecidableEq α] [DecidableEq β]
    (f : γ → α) (g : γ → β) : ∀ l : List γ,
    (∀ a ∈ l, ∀ b ∈ l, (f a = f b ↔ g a = g b)) →
    ((l.map f).dedup).length = ((l.map g).dedup).length := by
  intro l
  induction l with
  | nil => intro _; rfl
  | cons a t ih =>
    intro h
    have hmem : f a ∈ t.map f ↔ g a ∈ t.map g := by
      simp only [List.mem_map]
      constructor
      · rintro ⟨b, hb, hfb⟩
        exact ⟨b, hb, (h b (by simp [hb]) a (by simp)).mp hfb⟩
      · rintro ⟨b, hb, hgb⟩
        exact ⟨b, hb, (h b (by simp [hb]) a (by simp)).mpr hgb⟩
    have ht := ih (fun x hx y hy => h x (by simp [hx]) y (by simp [hy]))
    by_cases hf : f a ∈ t.map f
    · rw [List.map_cons, List.map_cons, List.dedup_cons_of_mem hf,
        List.dedup_cons_of_mem (hmem.mp hf)]
      exact ht
    · rw [List.map_cons, List.map_cons, List.dedup_cons_of_not_mem hf,
        List.dedup_cons_of_not_mem (fun hg => hf (hmem.mpr hg))]
      simp [ht]

/-- C4: the online-device count equals the number of distinct structured keys of
the in-window rows, keyed per the layered rule — (user id, agent) for rows with a
user id and non-blank (trimmed, lower-cased) agent, (user id, device id) for rows
with a user id only, device id alone otherwise. In particular two in-window rows
with the same user id and identical non-blank agent but different device ids
carry the same key and count as one. -/
theorem c4_presence_count (rows : List OnlineDevicePresenceRow)
    (now window_seconds : Int) :
    get_online_device_count rows now window_seconds =
      (((rows.filter (fun r => presence_threshold now window_seconds ≤
          r.last_seen_at)).map presenceSpecKey).dedup).length ∧
    (∀ r1 r2 : OnlineDevicePresenceRow, ∀ uid : Nat,
      r1.user_id = some uid → r2.user_id = some uid →
      toLowerStr (pyStrip (r1.user_agent.getD [])) =
        toLowerStr (pyStrip (r2.user_agent.getD [])) →
      toLowerStr (pyStrip (r1.user_agent.getD [])) ≠ [] →
      presenceSpecKey r1 = presenceSpecKey r2 ∧ presenceKey r1 = presenceKey r2) ∧
    (∀ r : OnlineDevicePresenceRow, r.user_id = none →
      presenceSpecKey r = PresenceKey.anonymous r.device_id) := by
  refine ⟨?_, ?_, ?_⟩
  · exact dedup_length_congr presenceKey presenceSpecKey _
      (fun a _ b _ => presenceKey_eq_iff a b)
  · intro r1 r2 uid h1 h2 hag hne
    have hae : (toLowerStr (pyStrip (r1.user_agent.getD []))).isEmpty = false :=
      List.isEmpty_eq_false.mpr hne
    have hae2 : (toLowerStr (pyStrip (r2.user_agent.getD []))).isEmpty = false := by
      rw [← hag]; exact hae
    constructor
    · simp [presenceSpecKey, h1, h2, hae, hae2, hag]
    · simp [presenceKey, h1, h2, hae, hae2, hag]
  · intro r hr
    simp [presenceSpecKey, hr]

/-- Witness for C4: two in-window rows of the same user with the same non-blank
agent but different devices count as one; an anonymous row keys by device id. -/
theorem c4_presence_count_witness :
    get_online_device_count [⟨"d1".data, some 8, some "Moz".data, 100⟩,
      ⟨"d2".data, some 8, some " moz ".data, 100⟩] 100 60 = 1 ∧
    presenceKey ⟨"d1".data, some 8, some "Moz".data, 100⟩ =
      presenceKey ⟨"d2".data, some 8, some " moz ".data, 100⟩ ∧
    presenceSpecKey ⟨"d3".data, none, none, 100⟩ =
      PresenceKey.anonymous "d3".data := by
  have h := c4_presence_count [⟨"d1".data, some 8, some "Moz".data, 100⟩,
    ⟨"d2".data, some 8, some " moz ".data, 100⟩] 100 60
  have hk := (h.2.1 ⟨"d1".data, some 8, some "Moz".data, 100⟩
    ⟨"d2".data, some 8, some " moz ".data, 100⟩ 8 rfl rfl (by decide) (by decide)).2
  refine ⟨?_, hk, h.2.2 ⟨"d3".data, none, none, 100⟩ rfl⟩
  simp only [get_online_device_count]
  rw [show List.filter
      (fun r => decide (presence_threshold 100 60 ≤ r.last_seen_at))
      [(⟨"d1".data, some 8, some "Moz".data, 100⟩ : OnlineDevicePresenceRow),
        ⟨"d2".data, some 8, some " moz ".data, 100⟩] =
      [⟨"d1".data, some 8, some "Moz".data, 100⟩,
        ⟨"d2".data, some 8, some " moz ".data, 100⟩] from rfl]
  rw [List.map_cons, List.map_cons, List.map_nil, hk,
    List.dedup_cons_of_mem (by simp)]
  simp

/-- C9: a heartbeat or offline signal whose device identifier is empty or
whitespace-only after trimming leaves the presence state entirely unchanged: no
record is created, updated, or deleted. -/
theorem c9_blank_device_id_no_op (rows : List OnlineDevicePresenceRow)
    (device_id : Str) (user_id : Option Nat) (user_agent : Option Str) (now : Int)
    (h : pyStrip device_id = []) :
    touch_online_device rows device_id user_id user_agent now = rows ∧
    remove_online_device rows device_id = rows := by
  constructor
  · simp [touch_online_device, h]
  · simp [remove_online_device, h]

/-- Witness for C9 at a whitespace-only device id and a nonempty presence table. -/
theorem c9_blank_device_id_no_op_witness :
    pyStrip "  ".data = [] ∧
    touch_online_device [⟨"d1".data, none, none, 0⟩] "  ".data (some 4)
      (some "ua".data) 9 = [⟨"d1".data, none, none, 0⟩] ∧
    remove_online_device [⟨"d1".data, none, none, 0⟩] "  ".data =
      [⟨"d1".data, none, none, 0⟩] := by
  have h := c9_blank_device_id_no_op [⟨"d1".data, none, none, 0⟩] "  ".data
    (some 4) (some "ua".data) 9 (by decide)
  exact ⟨by decide, h.1, h.2⟩

theorem register_user_preserves_admin (d : UsersDB) (u p : Str)
    (h : ∃ x ∈ d.users, x.is_admin = true) :
    ∃ x ∈ (register_user d u p).2.users, x.is_admin = true := by
  simp only [register_user]
  cases hq : get_user_by_username d (toLowerStr (pyStrip u)) with
  | some _ => simpa using h
  | none =>
    obtain ⟨x, hx, hxa⟩ := h
    exact ⟨x, by simp [hx], hxa⟩

theorem register_sequence_preserves_admin (events : List (Str × Str)) :
    ∀ d : UsersDB, (∃ x ∈ d.users, x.is_admin = true) →
      ∃ x ∈ (register_sequence d events).users, x.is_admin = true := by
  induction events with
  | nil => intro d h; exact h
  | cons ev rest ih =>
    intro d h
    exact ih _ (register_user_preserves_admin d ev.1 ev.2 h)

/-- C5: from a store with no admin user, a successful registration produces a
user with the admin flag set (and hence the store then holds an admin); a
registration performed while an admin exists produces a non-admin user; a failed
registration changes nothing; and once an admin exists, any further sequence of
registrations preserves the existence of an admin. Together: the first
successfully registered user from an admin-free store is the admin, every later
one is not, and after the first registration at least one admin always exists. -/
theorem c5_admin_invariant (d : UsersDB) (username password_hash : Str)
    (events : List (Str × Str)) :
    ((∀ u ∈ d.users, u.is_admin = false) → ∀ usr d2,
      register_user d username password_hash = (some usr, d2) →
      usr.is_admin = true ∧ ∃ v ∈ d2.users, v.is_admin = true) ∧
    ((∃ u ∈ d.users, u.is_admin = true) → ∀ usr d2,
      register_user d username password_hash = (some usr, d2) →
      usr.is_admin = false) ∧
    (∀ d2, register_user d username password_hash = (none, d2) → d2 = d) ∧
    ((∃ u ∈ d.users, u.is_admin = true) →
      ∃ u ∈ (register_sequence d events).users, u.is_admin = true) := by
  refine ⟨?_, ?_, ?_, fun h => register_sequence_preserves_admin events d h⟩
  · intro hno usr d2 h
    have hadm : d.users.any (fun u => u.is_admin) = false := by
      rw [List.any_eq_false]
      intro x hx
      simp [hno x hx]
    simp only [register_user, hadm] at h
    cases hq : get_user_by_username d (toLowerStr (pyStrip username)) with
    | some _ => rw [hq] at h; exact absurd h (by simp)
    | none =>
      rw [hq] at h
      injection h with h1 h2
      injection h1 with h1
      constructor
      · rw [← h1]; rfl
      · refine ⟨usr, ?_, ?_⟩
        · rw [← h2, ← h1]; simp
        · rw [← h1]; rfl
  · intro hyes usr d2 h
    have hadm : d.users.any (fun u => u.is_admin) = true := by
      obtain ⟨x, hx, hxa⟩ := hyes
      exact List.any_eq_true.mpr ⟨x, hx, hxa⟩
    simp only [register_user, hadm] at h
    cases hq : get_user_by_username d (toLowerStr (pyStrip username)) with
    | some _ => rw [hq] at h; exact absurd h (by simp)
    | none =>
      rw [hq] at h
      injection h with h1 h2
      injection h1 with h1
      rw [← h1]; rfl
  · intro d2 h
    simp only [register_user] at h
    cases hq : get_user_by_username d (toLowerStr (pyStrip username)) with
    | some _ =>
      rw [hq] at h
      injection h with h1 h2
      exact h2.symm
    | none =>
      rw [hq] at h
      exact absurd (congrArg Prod.fst h) (by simp)

/-- Witness for C5: registering `alice` into an empty store makes an admin;
registering `bob` afterwards does not; re-registering `alice` fails unchanged. -/
theorem c5_admin_invariant_witness :
    (register_user usersDB0 "alice".data "ph".data).1 = some aliceRow ∧
    register_user usersDB0 "alice".data "ph".data = (some aliceRow, usersDB1) ∧
    (∀ usr d2, register_user usersDB1 "bob".data "ph".data = (some usr, d2) →
      usr.is_admin = false) ∧
    (∀ d2, register_user usersDB1 "alice".data "ph2".data = (none, d2) →
      d2 = usersDB1) := by
  refine ⟨rfl, rfl, ?_, ?_⟩
  · intro usr d2 h
    exact (c5_admin_invariant usersDB1 "bob".data "ph".data []).2.1
      ⟨aliceRow, by simp [usersDB1], rfl⟩ usr d2 h
  · intro d2 h
    exact (c5_admin_invariant usersDB1 "alice".data "ph2".data []).2.2.1 d2 h

/-- Witness for C3 at `sampleDB` and a recipe referencing the missing `flour`. -/
theorem c3_missing_ingredients_witness :
    extract_ingredient_entries missingIngredientRecipe.ingredients =
      Except.ok [("flour".data, none)] ∧
    (resolveIngredients sampleDB [("flour".data, none)]).2 ≠ [] ∧
    (runSession (create_recipe missingIngredientRecipe 1) sampleDB).1 =
      Except.error "Unknown ingredients: flour. Add them to the ingredient list first.".data ∧
    (runSession (create_recipe missingIngredientRecipe 1) sampleDB).2 = sampleDB := by
  have hE : extract_ingredient_entries missingIngredientRecipe.ingredients =
      Except.ok [("flour".data, none)] := rfl
  have hm : (resolveIngredients sampleDB [("flour".data, none)]).2 ≠ [] := by decide
  have h := (c3_missing_ingredients sampleDB missingIngredientRecipe 1 3
    [("flour".data, none)] hE hm).1
  refine ⟨hE, hm, ?_, h.2.1⟩
  have hmsg : unknown_ingredients_message
      (sortedDedupStr (resolveIngredients sampleDB [("flour".data, none)]).2) =
      "Unknown ingredients: flour. Add them to the ingredient list first.".data := by
    decide
  rw [← hmsg]
  exact h.1

end RecipeDB
